import Mathlib

/-!
Verification of the webhook leaderboard aggregation pipeline.

The Python source is shallowly embedded:
* JSON field values in the webhook `data` mapping are `Val` (string or a
  non-string scalar carrying only its Python truthiness; non-string values
  raise `AttributeError` on string methods, which the source catches
  per event).
* A parsed timestamp is an instant (minutes since the Unix epoch, UTC)
  together with the UTC offset that was written in the string.  The two
  parsing strategies of the source (`fromisoformat` after Z-normalization,
  and `strptime "%Y-%m-%dT%H:%M:%S.%f%z"`) are embedded as the two
  optional fields `tsIso` / `tsStrp` of an event: `none` models a missing
  key, a non-string value, or a parse failure.
* The `America/Los_Angeles` conversion is a parameter `pac : Int → Int`
  giving the zone's UTC offset in minutes at a UTC instant; "now" is a
  parameter `now : Int` (minutes since epoch, UTC).
* Python `float` amounts are embedded as exact rationals; the payment
  strings exercised by the source are plain decimal notation, which the
  embedded parser models (no inf/nan/underscore forms).
* Python dicts are insertion-ordered association lists.
-/

/-- A JSON value found in an event's `data` mapping: either a string, or a
non-string scalar of which only the Python truthiness is relevant. -/
inductive Val where
  | str (s : String)
  | other (truthy : Bool)
deriving DecidableEq, Repr

/-- Python truthiness of a `data` field value (non-empty strings are truthy). -/
def Val.truthy : Val → Bool
  | .str s => !s.isEmpty
  | .other t => t

/-- Python `.lower()` on a field value: succeeds only on strings;
on a non-string it raises `AttributeError` (modelled as `none`). -/
def Val.lower? : Val → Option String
  | .str s => some ⟨s.toList.map Char.toLower⟩
  | .other _ => none

/-- A parsed timestamp: the instant in minutes since the Unix epoch (UTC)
plus the UTC offset (minutes) carried by the original string. -/
structure OffsetDateTime where
  utcMin : Int
  offMin : Int
deriving DecidableEq, Repr

/-- A raw webhook event.  `tsIso` is the result of the
fromisoformat-with-Z-normalization parse used by the daily aggregator,
`tsStrp` the result of the `strptime "%Y-%m-%dT%H:%M:%S.%f%z"` parse used by
the other aggregators; `none` models a missing `timestamp` key, a non-string
value, or a parse failure.  `data` is the `data` mapping (`none` models a
missing or non-mapping `data` member). -/
structure RawEvent where
  tsIso : Option OffsetDateTime
  tsStrp : Option OffsetDateTime
  data : Option (List (String × Val))
deriving DecidableEq, Repr

/-- Python `dict.get(k, dflt)` on the `data` mapping. -/
def getD (d : List (String × Val)) (k : String) (dflt : Val) : Val :=
  match d.find? (fun p => p.1 == k) with
  | some p => p.2
  | none => dflt

/-- Python `dict.get(k)` (default `None`, which is falsy). -/
def getOptV (d : List (String × Val)) (k : String) : Option Val :=
  (d.find? (fun p => p.1 == k)).map (·.2)

/-- Truthiness of a `dict.get(k)` result (`None` is falsy). -/
def optTruthy : Option Val → Bool
  | none => false
  | some v => v.truthy

/-- Dict lookup: the value stored under a key of an insertion-ordered
association list (keys are unique in every dict the source builds). -/
def alookup {κ β : Type} [DecidableEq κ] (l : List (κ × β)) (k : κ) : Option β :=
  (l.find? (fun p => p.1 == k)).map (·.2)

/-- Dict update `d[k] = f(d[k])`: rewrites the entry holding the key. -/
def mapUpdate {κ β : Type} [DecidableEq κ] (l : List (κ × β)) (k : κ)
    (f : β → β) : List (κ × β) :=
  l.map (fun p => if p.1 == k then (p.1, f p.2) else p)

/-! ## Calendar arithmetic

Local civil time of an instant is obtained by adding the zone offset;
the civil date is the floor of the local minutes over 1440.  The civil
(year, month, day) of an epoch day uses the standard days-to-civil
algorithm.  `pyWeekday` is Python's `date.weekday()` (Monday = 0;
1970-01-01 was a Thursday). -/

/-- Epoch day of a local time given in minutes. -/
def dayOfMin (localMin : Int) : Int := localMin.fdiv 1440

/-- Python's `date.weekday()`: Monday = 0 … Sunday = 6. -/
def pyWeekday (day : Int) : Int := (day + 3).emod 7

/-- Civil (year, month, day) of an epoch day (days-to-civil algorithm). -/
def civilFromDays (z0 : Int) : Int × Int × Int :=
  let z := z0 + 719468
  let era := z.fdiv 146097
  let doe := z - era * 146097
  let yoe := (doe - doe.fdiv 1460 + doe.fdiv 36524 - doe.fdiv 146096).fdiv 365
  let y := yoe + era * 400
  let doy := doe - (365 * yoe + yoe.fdiv 4 - yoe.fdiv 100)
  let mp := (5 * doy + 2).fdiv 153
  let d := doy - (153 * mp + 2).fdiv 5 + 1
  let m := mp + (if mp < 10 then 3 else -9)
  (y + (if m ≤ 2 then 1 else 0), m, d)

/-- Month (1–12) of an epoch day. -/
def monthOfDay (z : Int) : Int := (civilFromDays z).2.1

/-- Year of an epoch day. -/
def yearOfDay (z : Int) : Int := (civilFromDays z).1

/-- Local epoch day of a parsed timestamp in its own embedded UTC offset
(what `datetime.strptime(...).month` reads, without `astimezone`). -/
def ownDay (t : OffsetDateTime) : Int := dayOfMin (t.utcMin + t.offMin)

/-- Local epoch day of a parsed timestamp after `astimezone` to the zone
described by the offset function `pac`. -/
def pacDay (pac : Int → Int) (t : OffsetDateTime) : Int :=
  dayOfMin (t.utcMin + pac t.utcMin)

/-! ## Payment-amount parsing

`float(payment_amount.strip('$').replace(',', ''))` is embedded as:
strip `'$'` from both ends, drop every comma, then parse with a model of
Python `float` on decimal/scientific notation. -/

/-- Python `str.strip('$')`: removes `'$'` characters from both ends. -/
def stripDollars (s : String) : String :=
  let cs := s.toList.dropWhile (· == '$')
  ⟨(cs.reverse.dropWhile (· == '$')).reverse⟩

/-- Python `str.replace(',', '')`: removes every comma. -/
def dropCommas (s : String) : String := ⟨s.toList.filter (· ≠ ',')⟩

/-- Numeric value of a digit run. -/
def digitsVal (cs : List Char) : Nat :=
  cs.foldl (fun n c => n * 10 + (c.toNat - 48)) 0

/-- Parses an unsigned decimal mantissa `digits[.digits]` (either side of the
dot may be empty but not both), returning the combined digit value and the
number of fractional digits (the mantissa denotes `value / 10 ^ fracLen`). -/
def parseMantissa (cs : List Char) : Option (Nat × Nat) :=
  let intPart := cs.takeWhile (·.isDigit)
  let rest := cs.dropWhile (·.isDigit)
  match rest with
  | [] => if intPart.isEmpty then none else some (digitsVal intPart, 0)
  | '.' :: rest2 =>
    let fracPart := rest2.takeWhile (·.isDigit)
    let rest3 := rest2.dropWhile (·.isDigit)
    if !rest3.isEmpty then none
    else if intPart.isEmpty && fracPart.isEmpty then none
    else some (digitsVal intPart * 10 ^ fracPart.length + digitsVal fracPart,
        fracPart.length)
  | _ => none

/-- Parses an optionally signed digit run as an integer exponent. -/
def parseExp (cs : List Char) : Option Int :=
  match cs with
  | '-' :: r => if r.isEmpty || !r.all (·.isDigit) then none else some (-(digitsVal r : Int))
  | '+' :: r => if r.isEmpty || !r.all (·.isDigit) then none else some (digitsVal r : Int)
  | r => if r.isEmpty || !r.all (·.isDigit) then none else some (digitsVal r : Int)

/-- Removes the surrounding spaces Python `float` ignores. -/
def stripSpaces (cs : List Char) : List Char :=
  ((cs.dropWhile (· == ' ')).reverse.dropWhile (· == ' ')).reverse

/-- Splits an optional leading sign off, returning whether it was `'-'`. -/
def splitSign : List Char → Bool × List Char
  | '-' :: r => (true, r)
  | '+' :: r => (false, r)
  | r => (false, r)

/-- Model of Python `float(s)` on decimal and scientific notation:
surrounding spaces are ignored, an optional sign precedes a mantissa with an
optional `e`/`E` exponent.  (`inf`, `nan` and underscore separators are not
modelled; the payloads under spec use plain decimal currency strings.) -/
def parsePyFloat (s : String) : Option ℚ :=
  let (neg, cs) := splitSign (stripSpaces s.toList)
  let mant := cs.takeWhile (fun c => !(c == 'e' || c == 'E'))
  let rest := cs.dropWhile (fun c => !(c == 'e' || c == 'E'))
  match parseMantissa mant with
  | none => none
  | some (n, fl) =>
    match rest with
    | [] => some ((if neg then -1 else 1) * ((n : ℚ) / 10 ^ fl))
    | _ :: expPart =>
      match parseExp expPart with
      | none => none
      | some e => some ((if neg then -1 else 1) * ((n : ℚ) / 10 ^ fl) * (10 : ℚ) ^ e)

/-- The amount the source adds for a `Paymentamount` field value: `none` when
the addition is skipped (falsy value, `AttributeError` on a non-string, or
`ValueError` from `float`). -/
def payAmount? (pay : Val) : Option ℚ :=
  if pay.truthy then
    match pay with
    | .other _ => none
    | .str s => parsePyFloat (dropCommas (stripDollars s))
  else none

/-! ## Daily enrollment aggregator (`process_daily_enrollments`) -/

/-- One iteration `i` of the bucket-seeding loop body:
`day = current_date - timedelta(days=i)`; weekdays append the key
`day + 1` with count 0; the loop breaks once the dict holds 10 keys. -/
def seedGo (today : Int) : Nat → Nat → List (Int × Nat) → List (Int × Nat)
  | 0, _, acc => acc
  | fuel + 1, i, acc =>
    let day : Int := today - (i : Int)
    let acc' := if pyWeekday day < 5 then acc ++ [(day + 1, 0)] else acc
    if acc'.length = 10 then acc' else seedGo today fuel (i + 1) acc'

/-- The pre-seeded daily buckets: `for i in range(14)` over `seedGo`. -/
def seedBuckets (today : Int) : List (Int × Nat) := seedGo today 14 0 []

/-- Whether the bucket dict holds the key (`date_key in daily_enrollments`). -/
def hasKeyI (l : List (Int × Nat)) (k : Int) : Bool := l.any (fun p => p.1 == k)

/-- `daily_enrollments[date_key] += 1` (dict keys are unique by
construction, so updating every entry with the key is the dict update). -/
def bumpKeyI (l : List (Int × Nat)) (k : Int) : List (Int × Nat) :=
  mapUpdate l k (fun c => c + 1)

/-- Per-event body of `process_daily_enrollments`: parse the timestamp
(Z-normalized `fromisoformat`), convert to Pacific, shift the local date one
day forward, and if that key is pre-seeded and `Leadsales` lowercases to
`"yes"`, increment the bucket; every failure path is the caught
per-event exception. -/
def dailyStep (pac : Int → Int) (buckets : List (Int × Nat)) (e : RawEvent) :
    List (Int × Nat) :=
  match e.tsIso with
  | none => buckets
  | some t =>
    let dateKey := pacDay pac t + 1
    if hasKeyI buckets dateKey then
      match e.data with
      | none => buckets
      | some d =>
        match (getD d "Leadsales" (Val.str "no")).lower? with
        | none => buckets
        | some ls => if ls = "yes" then bumpKeyI buckets dateKey else buckets
    else buckets

/-- Insert one dated bucket into a list sorted by date descending. -/
def insertDescI (p : Int × Nat) : List (Int × Nat) → List (Int × Nat)
  | [] => [p]
  | q :: rest => if q.1 ≤ p.1 then p :: q :: rest else q :: insertDescI p rest

/-- `sorted_data.sort(key=lambda x: x['date'], reverse=True)` (the `%Y-%m-%d`
date strings of the seeded window compare exactly as their epoch days). -/
def sortDescI : List (Int × Nat) → List (Int × Nat)
  | [] => []
  | p :: rest => insertDescI p (sortDescI rest)

/-- `process_daily_enrollments`: buckets are keyed by epoch day (the
`%Y-%m-%d` key string of the source is a monotone encoding of that day);
`now` is the UTC instant of the call and `pac` the Pacific offset map. -/
def process_daily_enrollments (now : Int) (pac : Int → Int)
    (data : List RawEvent) : List (Int × Nat) :=
  let today := dayOfMin (now + pac now)
  let buckets := data.foldl (dailyStep pac) (seedBuckets today)
  (sortDescI buckets).take 10

/-! ## Lead-source aggregator (`process_leadsource_data`) -/

/-- `d[k] = 0` if absent, then `d[k] += 1` (new keys append in insertion
order, as in a Python dict). -/
def bumpInsV (l : List (Val × Nat)) (k : Val) : List (Val × Nat) :=
  if l.any (fun p => p.1 == k) then mapUpdate l k (fun c => c + 1)
  else l ++ [(k, 1)]

/-- Per-event body of `process_leadsource_data`: `strptime` parse,
`astimezone` to Pacific, month-number check against the current Pacific
month, then the `Leadsales == "yes" and lead_source` guard. -/
def leadStep (m : Int) (pac : Int → Int) (acc : List (Val × Nat))
    (e : RawEvent) : List (Val × Nat) :=
  match e.tsStrp with
  | none => acc
  | some t =>
    if monthOfDay (pacDay pac t) = m then
      match e.data with
      | none => acc
      | some d =>
        let src := getD d "Leadsource" (Val.str "")
        match (getD d "Leadsales" (Val.str "no")).lower? with
        | none => acc
        | some ls => if ls = "yes" && src.truthy then bumpInsV acc src else acc
    else acc

/-- `process_leadsource_data`. -/
def process_leadsource_data (now : Int) (pac : Int → Int)
    (data : List RawEvent) : List (Val × Nat) :=
  let m := monthOfDay (dayOfMin (now + pac now))
  data.foldl (leadStep m pac) []

/-! ## Monthly revenue aggregators -/

/-- An officer aggregate `{'name': …, 'value': …, 'demos': …}` with the
float revenue embedded as an exact rational. -/
structure Officer where
  name : Val
  value : ℚ
  demos : Nat
deriving DecidableEq, Repr

/-- Lazily create the officer's zero entry (`if officer_name not in …`). -/
def ensureOff (l : List (Val × Officer)) (k : Val) : List (Val × Officer) :=
  if l.any (fun p => p.1 == k) then l else l ++ [(k, ⟨k, 0, 0⟩)]

/-- `monthly_sales[officer_name]['demos'] += 1`. -/
def bumpDemos (l : List (Val × Officer)) (k : Val) : List (Val × Officer) :=
  mapUpdate l k (fun o => { o with demos := o.demos + 1 })

/-- `monthly_sales[officer_name]['value'] += amount`. -/
def addValue (l : List (Val × Officer)) (k : Val) (q : ℚ) : List (Val × Officer) :=
  mapUpdate l k (fun o => { o with value := o.value + q })

/-- Per-event body of `process_admin_monthly_revenue`.  The officer's zero
entry is created before the `Leadsales` and `Paymentamount` accesses, so a
later `AttributeError` (non-string field) leaves that entry behind: the
caught exception preserves all mutations made so far, as in the source. -/
def adminStep (m : Int) (pac : Int → Int) (acc : List (Val × Officer))
    (e : RawEvent) : List (Val × Officer) :=
  match e.tsStrp with
  | none => acc
  | some t =>
    if monthOfDay (pacDay pac t) = m then
      match e.data with
      | none => acc
      | some d =>
        let officer := getD d "SetOfficerName" (Val.str "")
        let ls := getD d "Leadsales" (Val.str "no")
        let pay := getD d "Paymentamount" (Val.str "0")
        let acc1 := ensureOff acc officer
        match ls.lower? with
        | none => acc1
        | some l =>
          let acc2 := if l = "yes" then bumpDemos acc1 officer else acc1
          match payAmount? pay with
          | none => acc2
          | some q => addValue acc2 officer q
    else acc

/-- `process_admin_monthly_revenue` (Contract A). -/
def process_admin_monthly_revenue (now : Int) (pac : Int → Int)
    (data : List RawEvent) : List Officer :=
  let m := monthOfDay (dayOfMin (now + pac now))
  (data.foldl (adminStep m pac) []).map (·.2)

/-- Per-event body of the revenue half of
`process_monthly_revenue_enrollments`: as `adminStep`, without the
`Leadsales` access and demo increment. -/
def revStep (m : Int) (pac : Int → Int) (acc : List (Val × Officer))
    (e : RawEvent) : List (Val × Officer) :=
  match e.tsStrp with
  | none => acc
  | some t =>
    if monthOfDay (pacDay pac t) = m then
      match e.data with
      | none => acc
      | some d =>
        let officer := getD d "SetOfficerName" (Val.str "")
        let pay := getD d "Paymentamount" (Val.str "0")
        let acc1 := ensureOff acc officer
        match payAmount? pay with
        | none => acc1
        | some q => addValue acc1 officer q
    else acc

/-! ## Initial-payment deduplicator (`process_initial_payments`) -/

/-- A per-officer payment ledger `{'count': …, 'cases': …}`; the Python set
of case IDs is kept as its duplicate-free insertion-ordered list. -/
structure Ledger where
  count : Nat
  cases : List Val
deriving DecidableEq, Repr

/-- The `(officer, case)` pair an event contributes to the deduplicator, or
`none` when any of the source's guards skips the event: missing/non-mapping
`data`, `InitialPayment` not lowercasing to `"yes"` (an `AttributeError`
included), `strptime` failure, the month number of the timestamp *in its own
UTC offset* differing from the current Pacific month number, or a falsy or
missing officer name or case ID. -/
def payContrib (m : Int) (e : RawEvent) : Option (Val × Val) :=
  match e.data with
  | none => none
  | some d =>
    match (getD d "InitialPayment" (Val.str "no")).lower? with
    | none => none
    | some ip =>
      if ip = "yes" then
        match e.tsStrp with
        | none => none
        | some t =>
          if monthOfDay (ownDay t) = m then
            match getOptV d "SetOfficerName", getOptV d "CaseID" with
            | some offn, some ci =>
              if offn.truthy && ci.truthy then some (offn, ci) else none
            | _, _ => none
          else none
      else none

/-- Records a contributing `(officer, case)` pair: create the officer's
empty ledger if needed, then skip an already-tracked case ID, else count it
and track the case. -/
def ledgerAdd (acc : List (Val × Ledger)) (offn ci : Val) : List (Val × Ledger) :=
  let acc1 := if acc.any (fun p => p.1 == offn) then acc
    else acc ++ [(offn, ⟨0, []⟩)]
  match alookup acc1 offn with
  | some lg =>
    if ci ∈ lg.cases then acc1
    else mapUpdate acc1 offn (fun lg => ⟨lg.count + 1, lg.cases ++ [ci]⟩)
  | none => acc1

/-- Per-event body of `process_initial_payments`. -/
def payStep (m : Int) (acc : List (Val × Ledger)) (e : RawEvent) :
    List (Val × Ledger) :=
  match payContrib m e with
  | none => acc
  | some (offn, ci) => ledgerAdd acc offn ci

/-- `process_initial_payments`. -/
def process_initial_payments (now : Int) (pac : Int → Int)
    (data : List RawEvent) : List (Val × Ledger) :=
  let m := monthOfDay (dayOfMin (now + pac now))
  data.foldl (payStep m) []

/-- `process_monthly_revenue_enrollments` (Contract B): the revenue fold,
then `demos` overwritten from the deduplicated initial-payment count for
officers present in that ledger. -/
def process_monthly_revenue_enrollments (now : Int) (pac : Int → Int)
    (data : List RawEvent) : List Officer :=
  let m := monthOfDay (dayOfMin (now + pac now))
  let ms := (data.foldl (revStep m pac) []).map (·.2)
  let payments := process_initial_payments now pac data
  ms.map (fun o =>
    match alookup payments o.name with
    | some lg => { o with demos := lg.count }
    | none => o)

/-! ## Opener aggregator (`process_enrollments_per_opener`) -/

/-- Per-event body of `process_enrollments_per_opener`. -/
def openerStep (m : Int) (pac : Int → Int) (acc : List (Val × Nat))
    (e : RawEvent) : List (Val × Nat) :=
  match e.data with
  | none => acc
  | some d =>
    match e.tsStrp with
    | none => acc
    | some t =>
      if monthOfDay (pacDay pac t) = m then
        match (getD d "Leadsales" (Val.str "no")).lower? with
        | none => acc
        | some ls =>
          if ls = "yes" then
            let op := getD d "OpenerName" (Val.str "")
            if op.truthy then bumpInsV acc op else acc
          else acc
      else acc

/-- Stable insertion into a list sorted by count descending
(`sorted(..., key=lambda x: x[1], reverse=True)` is stable). -/
def insertDescC (p : Val × Nat) : List (Val × Nat) → List (Val × Nat)
  | [] => [p]
  | q :: rest => if q.2 < p.2 then p :: q :: rest else q :: insertDescC p rest

/-- Stable sort by count descending. -/
def sortDescC : List (Val × Nat) → List (Val × Nat)
  | [] => []
  | p :: rest => insertDescC p (sortDescC rest)

/-- `process_enrollments_per_opener`. -/
def process_enrollments_per_opener (now : Int) (pac : Int → Int)
    (data : List RawEvent) : List (Val × Nat) :=
  let m := monthOfDay (dayOfMin (now + pac now))
  sortDescC (data.foldl (openerStep m pac) [])

/-! ## Webhook fetcher (`fetch_webhook_data`)

Network attempts are an oracle `oracle : Nat → AttemptOutcome` giving the
outcome of each 0-based attempt; `now` is `datetime.now()` in seconds.  The
result records the final cache state, the returned value, and the sequence
of `time.sleep` durations. -/

/-- Outcome of one network attempt: a verified success (valid HTTP status
and parseable JSON body) carrying the payload, or one of the caught
failures. -/
inductive AttemptOutcome where
  | success (payload : List RawEvent)
  | timeout
  | reqError
  | jsonError
deriving DecidableEq, Repr

/-- Whether an attempt outcome is a success. -/
def AttemptOutcome.isSuccess : AttemptOutcome → Bool
  | .success _ => true
  | _ => false

/-- The module-level cache: `webhook_cache` and `webhook_last_success`. -/
structure FetchState where
  cache : Option (List RawEvent)
  lastSuccess : Option Int
deriving DecidableEq, Repr

/-- Result of a `fetch_webhook_data` call: final cache state, return value,
and the `time.sleep` durations performed, in order. -/
structure FetchResult where
  state : FetchState
  ret : Option (List RawEvent)
  sleeps : List Int
deriving DecidableEq, Repr

/-- `MAX_RETRIES`. -/
def MAX_RETRIES : Nat := 3

/-- `RETRY_DELAY` (seconds). -/
def RETRY_DELAY : Int := 1

/-- `webhook_cache_duration` (seconds). -/
def CACHE_DURATION : Int := 5

/-- `if webhook_cache and webhook_last_success: if current_time -
webhook_last_success < webhook_cache_duration:` — note the truthiness test:
a cached *empty* payload list is falsy and fails this guard. -/
def cacheFresh (st : FetchState) (now : Int) : Bool :=
  match st.cache, st.lastSuccess with
  | some p, some t => !p.isEmpty && (now - t < CACHE_DURATION)
  | _, _ => false

/-- The `for attempt in range(MAX_RETRIES)` loop: a success stores the
payload and `current_time` in the cache and returns immediately; a failure
sleeps `RETRY_DELAY * (attempt + 1)` unless this was the final attempt.
After the loop, `if webhook_cache:` returns the cached payload only when it
is truthy (non-empty), else `None`. -/
def attemptLoop (now : Int) (oracle : Nat → AttemptOutcome) :
    Nat → Nat → FetchState → List Int → FetchResult
  | 0, _, st, sleeps =>
    match st.cache with
    | some p => if !p.isEmpty then ⟨st, some p, sleeps⟩ else ⟨st, none, sleeps⟩
    | none => ⟨st, none, sleeps⟩
  | fuel + 1, attempt, st, sleeps =>
    match oracle attempt with
    | .success p => ⟨⟨some p, some now⟩, some p, sleeps⟩
    | _ =>
      let sleeps' := if attempt < MAX_RETRIES - 1 then
          sleeps ++ [RETRY_DELAY * ((attempt : Int) + 1)]
        else sleeps
      attemptLoop now oracle fuel (attempt + 1) st sleeps'

/-- `fetch_webhook_data`. -/
def fetch_webhook_data (st : FetchState) (now : Int)
    (oracle : Nat → AttemptOutcome) : FetchResult :=
  if cacheFresh st now then ⟨st, st.cache, []⟩
  else attemptLoop now oracle MAX_RETRIES 0 st []

/-- Whether an event increments the lead-source counter of `k`: `strptime`
parses, the Pacific month number matches, `Leadsales` lowercases to
`"yes"`, and `Leadsource` is the truthy value `k`. -/
def leadHit (m : Int) (pac : Int → Int) (k : Val) (e : RawEvent) : Bool :=
  match e.tsStrp, e.data with
  | some t, some d =>
    (monthOfDay (pacDay pac t) == m)
      && ((getD d "Leadsales" (Val.str "no")).lower? == some "yes")
      && (getD d "Leadsource" (Val.str "")).truthy
      && (getD d "Leadsource" (Val.str "") == k)
  | _, _ => false

/-- Whether an event increments the opener counter of `k`. -/
def openerHit (m : Int) (pac : Int → Int) (k : Val) (e : RawEvent) : Bool :=
  match e.tsStrp, e.data with
  | some t, some d =>
    (monthOfDay (pacDay pac t) == m)
      && ((getD d "Leadsales" (Val.str "no")).lower? == some "yes")
      && (getD d "OpenerName" (Val.str "")).truthy
      && (getD d "OpenerName" (Val.str "") == k)
  | _, _ => false

/-! ## Per-event contribution functions for the revenue aggregators -/

/-- The officer dict key an event uses: `data.get('SetOfficerName', '')`. -/
def officerKeyOf (d : List (String × Val)) : Val := getD d "SetOfficerName" (Val.str "")

/-- Whether an event creates/owns officer `k`'s entry in
`process_admin_monthly_revenue` and `process_monthly_revenue_enrollments`:
`strptime` parses, the Pacific month number matches, `data` is a mapping,
and the officer key is `k`. -/
def adminCreates (m : Int) (pac : Int → Int) (k : Val) (e : RawEvent) : Bool :=
  match e.tsStrp, e.data with
  | some t, some d => (monthOfDay (pacDay pac t) == m) && (officerKeyOf d == k)
  | _, _ => false

/-- The demo count an event adds to officer `k` in
`process_admin_monthly_revenue`: 1 exactly when the entry is owned by `k`
and `Leadsales` lowercases to `"yes"`. -/
def adminDemoC (m : Int) (pac : Int → Int) (k : Val) (e : RawEvent) : Nat :=
  match e.tsStrp, e.data with
  | some t, some d =>
    if (monthOfDay (pacDay pac t) == m) && (officerKeyOf d == k)
        && ((getD d "Leadsales" (Val.str "no")).lower? == some "yes") then 1 else 0
  | _, _ => 0

/-- The revenue an event adds to officer `k` in
`process_admin_monthly_revenue`: the parsed `Paymentamount` when the entry
is owned by `k`, `Leadsales` is a string (otherwise the `AttributeError` on
`.lower()` aborts the entry before the payment), and the amount parses. -/
def adminValC (m : Int) (pac : Int → Int) (k : Val) (e : RawEvent) : ℚ :=
  match e.tsStrp, e.data with
  | some t, some d =>
    if (monthOfDay (pacDay pac t) == m) && (officerKeyOf d == k)
        && ((getD d "Leadsales" (Val.str "no")).lower?).isSome then
      (payAmount? (getD d "Paymentamount" (Val.str "0"))).getD 0
    else 0
  | _, _ => 0

/-- The revenue an event adds to officer `k` in
`process_monthly_revenue_enrollments`: as `adminValC` but with no
`Leadsales` access before the payment. -/
def revValC (m : Int) (pac : Int → Int) (k : Val) (e : RawEvent) : ℚ :=
  match e.tsStrp, e.data with
  | some t, some d =>
    if (monthOfDay (pacDay pac t) == m) && (officerKeyOf d == k) then
      (payAmount? (getD d "Paymentamount" (Val.str "0"))).getD 0
    else 0
  | _, _ => 0

/-- Forgets the demo counts of an officer dict (the two revenue variants
agree on everything else). -/
def stripDemos (l : List (Val × Officer)) : List (Val × Officer) :=
  l.map (fun p => (p.1, { p.2 with demos := 0 }))

/-- Whether the `Leadsales` value the demos variant would read from an event
is a string (so its `.lower()` cannot raise).  Events without a `data`
mapping never reach that read. -/
def lsIsString (e : RawEvent) : Bool :=
  match e.data with
  | some d =>
    match getD d "Leadsales" (Val.str "no") with
    | .str _ => true
    | .other _ => false
  | none => true

/-- The case ID an event contributes to officer `k`'s deduplicated ledger
(`none` when the event is skipped or owned by another officer). -/
def payHitCase (m : Int) (k : Val) (e : RawEvent) : Option Val :=
  match payContrib m e with
  | some (offn, ci) => if offn = k then some ci else none
  | none => none

/-- Whether an event increments the pre-seeded daily bucket `k`: the
Z-normalized parse succeeds, the Pacific local date plus one day is `k`,
and `Leadsales` lowercases to `"yes"`. -/
def dailyHit (pac : Int → Int) (k : Int) (e : RawEvent) : Bool :=
  match e.tsIso, e.data with
  | some t, some d =>
    (pacDay pac t + 1 == k)
      && ((getD d "Leadsales" (Val.str "no")).lower? == some "yes")
  | _, _ => false

/-- Replays a stream of case IDs into a ledger the way the deduplicator
does: an already-tracked case is skipped, a new one is counted and
tracked. -/
def ledgerExtend : Ledger → List Val → Ledger
  | lg, [] => lg
  | lg, c :: cl =>
    ledgerExtend (if c ∈ lg.cases then lg else ⟨lg.count + 1, lg.cases ++ [c]⟩) cl

/-! ## Malformed-event predicates (claim C9) -/

/-- The event's `Leadsales` read raises: `data` missing/non-mapping, or the
value is a non-string. -/
def lsRaises (e : RawEvent) : Bool :=
  match e.data with
  | some d => ((getD d "Leadsales" (Val.str "no")).lower?).isNone
  | none => true

/-- The event's `InitialPayment` read raises. -/
def ipRaises (e : RawEvent) : Bool :=
  match e.data with
  | some d => ((getD d "InitialPayment" (Val.str "no")).lower?).isNone
  | none => true

/-- A malformed event for the daily aggregator: unparsable timestamp, or a
raising `Leadsales` read. -/
def malformedDaily (e : RawEvent) : Bool := e.tsIso.isNone || lsRaises e

/-- A malformed event for the lead-source and opener aggregators. -/
def malformedMonthly (e : RawEvent) : Bool := e.tsStrp.isNone || lsRaises e

/-- A malformed event for the deduplicator: unparsable timestamp, raising
`InitialPayment` read, or missing/falsy officer name or case ID. -/
def malformedPay (e : RawEvent) : Bool :=
  e.tsStrp.isNone || ipRaises e ||
    (match e.data with
     | some d => !(optTruthy (getOptV d "SetOfficerName")
         && optTruthy (getOptV d "CaseID"))
     | none => true)

/-- The number of failed attempts a `fetch_webhook_data` retry loop makes
before its first success, capped at `MAX_RETRIES`. -/
def failuresBeforeSuccess (oracle : Nat → AttemptOutcome) : Nat :=
  if (oracle 0).isSuccess then 0
  else if (oracle 1).isSuccess then 1
  else if (oracle 2).isSuccess then 2
  else 3

/-! ## Definitions modelled from the spec's words (for refutations only) -/

/-- Modelled from the spec's words (claims C1/C5/C6 read "in the current
calendar month"): the event's Pacific-local year AND month equal those of
"now".  The code under `src/` compares only month numbers; this definition
exists to state the refutations, not to model the code. -/
def specInCurrentCalMonth (now : Int) (pac : Int → Int) (t : OffsetDateTime) : Bool :=
  (yearOfDay (pacDay pac t) == yearOfDay (dayOfMin (now + pac now)))
    && (monthOfDay (pacDay pac t) == monthOfDay (dayOfMin (now + pac now)))

/-- Modelled from the spec's words (claim C6 reads "stripped of a leading
`$`"): removes one leading dollar sign only, unlike the source's
`strip('$')` which also removes trailing ones. -/
def specStripLeadingDollar (s : String) : String :=
  match s.toList with
  | '$' :: rest => ⟨rest⟩
  | _ => s

/-! ## Concrete instants and events used by the closed theorems -/

/-- A fixed Pacific offset map: UTC−8 (PST) at every instant. -/
def pacPST : Int → Int := fun _ => -480

/-- 2026-10-15 20:00 UTC = 2026-10-15 12:00 PST (epoch day 20741). -/
def NOWC : Int := 20741 * 1440 + 1200

/-- 2026-10-15T12:00:00+00:00. -/
def tsInMonth : OffsetDateTime := ⟨20741 * 1440 + 720, 0⟩

/-- 2025-10-15T12:00:00+00:00 — October of the PREVIOUS year. -/
def tsLastYear : OffsetDateTime := ⟨20376 * 1440 + 720, 0⟩

/-- 2026-10-01T00:30:00+00:00 — just after the month boundary in UTC, still
2026-09-30 in Pacific time. -/
def tsBoundary : OffsetDateTime := ⟨20727 * 1440 + 30, 0⟩

/-- An in-month initial-payment event for officer `"A"` and case `c`. -/
def evIP (c : String) : RawEvent :=
  ⟨some tsInMonth, some tsInMonth,
    some [("InitialPayment", Val.str "yes"), ("SetOfficerName", Val.str "A"),
      ("CaseID", Val.str c)]⟩

/-- A last-year initial-payment event for officer `"A"` and case `"9"`. -/
def evIPold : RawEvent :=
  ⟨some tsLastYear, some tsLastYear,
    some [("InitialPayment", Val.str "yes"), ("SetOfficerName", Val.str "A"),
      ("CaseID", Val.str "9")]⟩

/-- A lead-sale event for source `"FB"` with timestamp `t`. -/
def evLS (t : OffsetDateTime) : RawEvent :=
  ⟨some t, some t, some [("Leadsales", Val.str "yes"), ("Leadsource", Val.str "FB")]⟩

/-- An in-month payment event for officer `"X"` with amount `amt`. -/
def evPay (amt : Val) : RawEvent :=
  ⟨some tsInMonth, some tsInMonth,
    some [("SetOfficerName", Val.str "X"), ("Paymentamount", amt)]⟩

/-- An in-month event for officer `"X"` whose `Leadsales` is a non-string
(truthy) value and whose payment amount is `"100"`. -/
def evBadLS : RawEvent :=
  ⟨some tsInMonth, some tsInMonth,
    some [("SetOfficerName", Val.str "X"), ("Leadsales", Val.other true),
      ("Paymentamount", Val.str "100")]⟩

/-- An in-month event for officer `"X"` with `Leadsales` `"yes"` but a
non-string (truthy) `Paymentamount`. -/
def evBadPay : RawEvent :=
  ⟨some tsInMonth, some tsInMonth,
    some [("SetOfficerName", Val.str "X"), ("Leadsales", Val.str "yes"),
      ("Paymentamount", Val.other true)]⟩

/-- A month-boundary event carrying every field the aggregators read. -/
def evBoundaryFull : RawEvent :=
  ⟨some tsBoundary, some tsBoundary,
    some [("InitialPayment", Val.str "yes"), ("SetOfficerName", Val.str "A"),
      ("CaseID", Val.str "1"), ("Leadsales", Val.str "yes"),
      ("Leadsource", Val.str "FB"), ("OpenerName", Val.str "O"),
      ("Paymentamount", Val.str "100")]⟩

/-- An in-month lead-sale event with timestamp `t` (daily aggregator). -/
def evDaily (t : OffsetDateTime) : RawEvent :=
  ⟨some t, some t, some [("Leadsales", Val.str "yes")]⟩

/-- A maximally malformed event: no parseable timestamp, no data mapping. -/
def evNothing : RawEvent := ⟨none, none, none⟩

/-! ## Association-list lemmas -/

section AListLemmas

variable {κ β : Type} [DecidableEq κ]

theorem alookup_nil (k : κ) : alookup ([] : List (κ × β)) k = none := rfl

theorem alookup_cons (p : κ × β) (l : List (κ × β)) (k : κ) :
    alookup (p :: l) k = if p.1 = k then some p.2 else alookup l k := by
  by_cases h : p.1 = k
  · rw [alookup, List.find?_cons_of_pos _ (by simp [h]), if_pos h]
    rfl
  · rw [alookup, List.find?_cons_of_neg _ (by simp [h]), if_neg h]
    rfl

theorem mapUpdate_cons (p : κ × β) (l : List (κ × β)) (k : κ) (f : β → β) :
    mapUpdate (p :: l) k f =
      (if p.1 = k then (p.1, f p.2) else p) :: mapUpdate l k f := by
  by_cases hp : p.1 = k <;> simp [mapUpdate, hp]

theorem alookup_mapUpdate (l : List (κ × β)) (k k' : κ) (f : β → β) :
    alookup (mapUpdate l k f) k' =
      if k' = k then (alookup l k').map f else alookup l k' := by
  induction l with
  | nil => simp [mapUpdate, alookup]
  | cons p rest ih =>
    rw [mapUpdate_cons]
    by_cases hp : p.1 = k
    · by_cases hk : k' = k
      · subst hk
        simp [hp, alookup_cons, hp]
      · have hpk : p.1 ≠ k' := fun h => hk (hp ▸ h ▸ rfl)
        have hk' : ¬k = k' := fun h => hk h.symm
        simp [hp, hk, hk', alookup_cons, hpk, ih]
    · by_cases hk : k' = k
      · subst hk
        have hpk : p.1 ≠ k' := hp
        simp [hp, alookup_cons, hpk, ih]
      · by_cases hpk : p.1 = k'
        · simp [hp, hk, alookup_cons, hpk, ih]
        · simp [hp, hk, alookup_cons, hpk, ih]

theorem alookup_append_single (l : List (κ × β)) (k0 k : κ) (v : β) :
    alookup (l ++ [(k0, v)]) k =
      match alookup l k with
      | some w => some w
      | none => if k0 = k then some v else none := by
  induction l with
  | nil => by_cases h : k0 = k <;> simp [alookup_cons, alookup_nil, h]
  | cons p rest ih =>
    by_cases hp : p.1 = k
    · simp [alookup_cons, hp]
    · simp [List.cons_append, alookup_cons, hp, ih]

theorem any_key_eq_isSome (l : List (κ × β)) (k : κ) :
    (l.any (fun p => p.1 == k)) = (alookup l k).isSome := by
  induction l with
  | nil => simp [alookup]
  | cons p rest ih =>
    by_cases hp : p.1 = k <;> simp [alookup_cons, hp, ih]

theorem alookup_some_mem {l : List (κ × β)} {k : κ} {v : β}
    (h : alookup l k = some v) : (k, v) ∈ l := by
  induction l with
  | nil => simp [alookup] at h
  | cons p rest ih =>
    obtain ⟨a, b⟩ := p
    by_cases hp : a = k
    · rw [alookup_cons, if_pos hp] at h
      subst hp
      injection h with h
      subst h
      exact List.mem_cons_self _ _
    · rw [alookup_cons, if_neg hp] at h
      exact List.mem_cons_of_mem _ (ih h)

theorem alookup_of_mem_nodup {l : List (κ × β)} {k : κ} {v : β}
    (hnd : (l.map (·.1)).Nodup) (hm : (k, v) ∈ l) : alookup l k = some v := by
  induction l with
  | nil => simp at hm
  | cons p rest ih =>
    obtain ⟨a, b⟩ := p
    rw [List.map_cons, List.nodup_cons] at hnd
    rcases List.mem_cons.1 hm with h | h
    · injection h with h1 h2
      subst h1
      subst h2
      rw [alookup_cons]
      simp
    · have hk : a ≠ k := by
        intro hak
        exact hnd.1 (by simpa [← hak] using List.mem_map_of_mem (·.1) h)
      rw [alookup_cons, if_neg hk]
      exact ih hnd.2 h

theorem keys_mapUpdate (l : List (κ × β)) (k : κ) (f : β → β) :
    (mapUpdate l k f).map (·.1) = l.map (·.1) := by
  induction l with
  | nil => rfl
  | cons p rest ih =>
    rw [mapUpdate_cons]
    by_cases hp : p.1 = k <;> simp [hp, ih]

theorem length_mapUpdate (l : List (κ × β)) (k : κ) (f : β → β) :
    (mapUpdate l k f).length = l.length := by
  simp [mapUpdate]

end AListLemmas

/-- Removing a list element whose processing step is a no-op does not change
a left fold. -/
theorem foldl_middle_noop {α β : Type} (step : β → α → β) (init : β)
    (l1 l2 : List α) (e : α) (h : ∀ st, step st e = st) :
    (l1 ++ e :: l2).foldl step init = (l1 ++ l2).foldl step init := by
  simp [List.foldl_append, List.foldl_cons, h]

/-! ## Counter-dict lemmas (lead-source and opener aggregators) -/

theorem alookup_bumpInsV (l : List (Val × Nat)) (k k' : Val) :
    alookup (bumpInsV l k) k' =
      if k' = k then some ((alookup l k').getD 0 + 1) else alookup l k' := by
  unfold bumpInsV
  by_cases h : l.any (fun p => p.1 == k)
  · rw [if_pos h, alookup_mapUpdate]
    by_cases hk : k' = k
    · subst hk
      have hs : (alookup l k').isSome := by rw [← any_key_eq_isSome]; exact h
      cases hval : alookup l k' with
      | none => rw [hval] at hs; simp at hs
      | some n => simp [hval]
    · simp [hk]
  · rw [if_neg h, alookup_append_single]
    by_cases hk : k' = k
    · subst hk
      have hn : alookup l k' = none := by
        rw [any_key_eq_isSome] at h
        exact Option.not_isSome_iff_eq_none.1 (by simpa using h)
      simp [hn]
    · have hk2 : ¬k = k' := fun hh => hk hh.symm
      cases hval : alookup l k' with
      | some w => simp [hval, hk]
      | none => simp [hval, hk, hk2]

/-- Left folds of a per-event counter step: the final count under a key is
the initial count plus the number of events hitting that key. -/
theorem fold_counter {α : Type} (step : List (Val × Nat) → α → List (Val × Nat))
    (hit : α → Bool) (k : Val)
    (hstep : ∀ acc e, alookup (step acc e) k =
      if hit e then some ((alookup acc k).getD 0 + 1) else alookup acc k) :
    ∀ (l : List α) (acc : List (Val × Nat)),
      alookup (l.foldl step acc) k =
        if l.countP hit = 0 then alookup acc k
        else some ((alookup acc k).getD 0 + l.countP hit) := by
  intro l
  induction l with
  | nil => intro acc; simp
  | cons e rest ih =>
    intro acc
    rw [List.foldl_cons, ih]
    by_cases he : hit e
    · have h1 : alookup (step acc e) k = some ((alookup acc k).getD 0 + 1) := by
        rw [hstep]; simp [he]
      rw [List.countP_cons]
      by_cases hr : rest.countP hit = 0
      · simp [he, h1, hr]
      · simp [he, h1, hr]
        omega
    · have h1 : alookup (step acc e) k = alookup acc k := by
        rw [hstep]; simp [he]
      rw [List.countP_cons]
      simp [he, h1]

theorem leadStep_alookup (m : Int) (pac : Int → Int)
    (acc : List (Val × Nat)) (e : RawEvent) (k : Val) :
    alookup (leadStep m pac acc e) k =
      if leadHit m pac k e then some ((alookup acc k).getD 0 + 1)
      else alookup acc k := by
  unfold leadStep leadHit
  cases hts : e.tsStrp with
  | none => simp
  | some t =>
    cases hd : e.data with
    | none => simp
    | some d =>
      by_cases hm : monthOfDay (pacDay pac t) = m
      · cases hls : (getD d "Leadsales" (Val.str "no")).lower? with
        | none => simp [hm, hls]
        | some ls =>
          by_cases hyes : ls = "yes"
          · by_cases htr : (getD d "Leadsource" (Val.str "")).truthy
            · have hb := alookup_bumpInsV acc (getD d "Leadsource" (Val.str "")) k
              by_cases hsk : getD d "Leadsource" (Val.str "") = k
              · rw [hsk] at hb htr
                simp [hm, hls, hyes, htr, hb, hsk]
              · have hks : ¬k = getD d "Leadsource" (Val.str "") := fun hh => hsk hh.symm
                simp [hm, hls, hyes, htr, hb, hsk, hks]
            · simp [hm, hls, hyes, htr]
          · simp [hm, hls, hyes]
      · simp [hm]

theorem openerStep_alookup (m : Int) (pac : Int → Int)
    (acc : List (Val × Nat)) (e : RawEvent) (k : Val) :
    alookup (openerStep m pac acc e) k =
      if openerHit m pac k e then some ((alookup acc k).getD 0 + 1)
      else alookup acc k := by
  unfold openerStep openerHit
  cases hd : e.data with
  | none => simp
  | some d =>
    cases hts : e.tsStrp with
    | none => simp
    | some t =>
      by_cases hm : monthOfDay (pacDay pac t) = m
      · cases hls : (getD d "Leadsales" (Val.str "no")).lower? with
        | none => simp [hm, hls]
        | some ls =>
          by_cases hyes : ls = "yes"
          · by_cases htr : (getD d "OpenerName" (Val.str "")).truthy
            · have hb := alookup_bumpInsV acc (getD d "OpenerName" (Val.str "")) k
              by_cases hsk : getD d "OpenerName" (Val.str "") = k
              · rw [hsk] at hb htr
                simp [hm, hls, hyes, htr, hb, hsk]
              · have hks : ¬k = getD d "OpenerName" (Val.str "") := fun hh => hsk hh.symm
                simp [hm, hls, hyes, htr, hb, hsk, hks]
            · simp [hm, hls, hyes, htr]
          · simp [hm, hls, hyes]
      · simp [hm]

/-! ## Concrete evaluation helpers for parsed amounts -/

theorem parsePyFloat_pos_eval (s : String) (n fl : Nat) (cs2 : List Char)
    (h1 : splitSign (stripSpaces s.toList) = (false, cs2))
    (h2 : cs2.dropWhile (fun c => !(c == 'e' || c == 'E')) = [])
    (h3 : parseMantissa (cs2.takeWhile (fun c => !(c == 'e' || c == 'E')))
      = some (n, fl)) :
    parsePyFloat s = some ((n : ℚ) / 10 ^ fl) := by
  simp only [parsePyFloat, h1, h2, h3]
  norm_num

theorem parsePyFloat_none_eval (s : String) (b : Bool) (cs2 : List Char)
    (h1 : splitSign (stripSpaces s.toList) = (b, cs2))
    (h3 : parseMantissa (cs2.takeWhile (fun c => !(c == 'e' || c == 'E')))
      = none) :
    parsePyFloat s = none := by
  simp only [parsePyFloat, h1, h3]

theorem payAmount_pos_eval (v : String) (n fl : Nat) (cs2 : List Char)
    (htr : (Val.str v).truthy = true)
    (h1 : splitSign (stripSpaces (dropCommas (stripDollars v)).toList)
      = (false, cs2))
    (h2 : cs2.dropWhile (fun c => !(c == 'e' || c == 'E')) = [])
    (h3 : parseMantissa (cs2.takeWhile (fun c => !(c == 'e' || c == 'E')))
      = some (n, fl)) :
    payAmount? (Val.str v) = some ((n : ℚ) / 10 ^ fl) := by
  simp only [payAmount?, htr, if_true]
  exact parsePyFloat_pos_eval _ n fl cs2 h1 h2 h3

theorem payAmount_none_eval (v : String) (b : Bool) (cs2 : List Char)
    (htr : (Val.str v).truthy = true)
    (h1 : splitSign (stripSpaces (dropCommas (stripDollars v)).toList) = (b, cs2))
    (h3 : parseMantissa (cs2.takeWhile (fun c => !(c == 'e' || c == 'E')))
      = none) :
    payAmount? (Val.str v) = none := by
  simp only [payAmount?, htr, if_true]
  exact parsePyFloat_none_eval _ b cs2 h1 h3

/-! ## Claim C5 — lead-source aggregator -/

/-- Claim C5, counterexample: the claim states that only events whose
parsed local timestamp falls in the current calendar month contribute, but
`process_leadsource_data` compares month numbers only.  With "now" in
October 2026 (Pacific), a `Leadsales: yes` / `Leadsource: "FB"` event
timestamped October 2025 — outside the current calendar month — still
increments `"FB"` to 1. -/
theorem C5_counterexample :
    process_leadsource_data NOWC pacPST [evLS tsLastYear] = [(Val.str "FB", 1)]
      ∧ specInCurrentCalMonth NOWC pacPST tsLastYear = false := by
  constructor
  · decide
  · decide

/-- Claim C5, amended: the returned mapping counts, per lead source, exactly
the events whose `strptime`-parsed, Pacific-converted timestamp has the same
month NUMBER as "now" in Pacific time (the year is not compared), whose
`Leadsales` lowercases to `"yes"`, and whose `Leadsource` is truthy; the
counter starts at the event count (initialized at zero on first sight),
and sources with no such event are absent. -/
theorem C5_amended (now : Int) (pac : Int → Int) (data : List RawEvent) (k : Val) :
    alookup (process_leadsource_data now pac data) k =
      (if data.countP (leadHit (monthOfDay (dayOfMin (now + pac now))) pac k) = 0
       then none
       else some (data.countP (leadHit (monthOfDay (dayOfMin (now + pac now))) pac k))) := by
  unfold process_leadsource_data
  rw [fold_counter (leadStep (monthOfDay (dayOfMin (now + pac now))) pac)
    (leadHit (monthOfDay (dayOfMin (now + pac now))) pac k) k
    (fun acc e => leadStep_alookup (monthOfDay (dayOfMin (now + pac now))) pac acc e k)]
  simp [alookup]

/-! ## Daily-bucket lemmas (claim C2) -/

theorem seedGo_succ (today : Int) (fuel i : Nat) (acc : List (Int × Nat)) :
    seedGo today (fuel + 1) i acc =
      (if (if pyWeekday (today - (i : Int)) < 5
            then acc ++ [(today - (i : Int) + 1, 0)] else acc).length = 10
       then (if pyWeekday (today - (i : Int)) < 5
            then acc ++ [(today - (i : Int) + 1, 0)] else acc)
       else seedGo today fuel (i + 1)
         (if pyWeekday (today - (i : Int)) < 5
          then acc ++ [(today - (i : Int) + 1, 0)] else acc)) := rfl

theorem seedGo_zero (today : Int) (i : Nat) (acc : List (Int × Nat)) :
    seedGo today 0 i acc = acc := rfl

theorem seedGo_length_le (today : Int) :
    ∀ (fuel i : Nat) (acc : List (Int × Nat)), acc.length < 10 →
      (seedGo today fuel i acc).length ≤ 10 := by
  intro fuel
  induction fuel with
  | zero =>
    intro i acc h
    rw [seedGo_zero]
    omega
  | succ n ih =>
    intro i acc h
    rw [seedGo_succ]
    by_cases hw : pyWeekday (today - (i : Int)) < 5
    · simp only [hw, if_true]
      by_cases hl : (acc ++ [(today - (i : Int) + 1, 0)]).length = 10
      · simp only [hl, if_true]
        omega
      · simp only [hl, if_false]
        apply ih
        simp only [List.length_append, List.length_singleton] at hl ⊢
        omega
    · simp only [hw, if_false]
      have hl : ¬(acc.length = 10) := by omega
      simp only [hl, if_false]
      exact ih _ _ h

theorem seedGo_mem (today : Int) :
    ∀ (fuel i : Nat) (acc : List (Int × Nat)) (p : Int × Nat),
      p ∈ seedGo today fuel i acc →
      p ∈ acc ∨ ∃ j : Nat, i ≤ j ∧ j < i + fuel ∧ pyWeekday (today - (j : Int)) < 5
        ∧ p = (today - (j : Int) + 1, 0) := by
  intro fuel
  induction fuel with
  | zero =>
    intro i acc p hp
    rw [seedGo_zero] at hp
    exact Or.inl hp
  | succ n ih =>
    intro i acc p hp
    rw [seedGo_succ] at hp
    have fromAcc : ∀ (hq : p ∈ (if pyWeekday (today - (i : Int)) < 5
        then acc ++ [(today - (i : Int) + 1, 0)] else acc)),
        p ∈ acc ∨ ∃ j : Nat, i ≤ j ∧ j < i + (n + 1) ∧ pyWeekday (today - (j : Int)) < 5
          ∧ p = (today - (j : Int) + 1, 0) := by
      intro hq
      by_cases hw : pyWeekday (today - (i : Int)) < 5
      · rw [if_pos hw] at hq
        rcases List.mem_append.1 hq with hin | hnew
        · exact Or.inl hin
        · refine Or.inr ⟨i, le_refl i, by omega, hw, ?_⟩
          simpa using hnew
      · rw [if_neg hw] at hq
        exact Or.inl hq
    by_cases hl : (if pyWeekday (today - (i : Int)) < 5
        then acc ++ [(today - (i : Int) + 1, 0)] else acc).length = 10
    · rw [if_pos hl] at hp
      exact fromAcc hp
    · rw [if_neg hl] at hp
      rcases ih (i + 1) _ p hp with hq | ⟨j, hj1, hj2, hj3, hj4⟩
      · exact fromAcc hq
      · exact Or.inr ⟨j, by omega, by omega, hj3, hj4⟩

theorem seedGo_keys_pairwise (today : Int) :
    ∀ (fuel i : Nat) (acc : List (Int × Nat)),
      (∀ q ∈ acc, today - (i : Int) + 1 < q.1) →
      List.Pairwise (fun a b : Int × Nat => b.1 < a.1) acc →
      List.Pairwise (fun a b : Int × Nat => b.1 < a.1) (seedGo today fuel i acc) := by
  intro fuel
  induction fuel with
  | zero =>
    intro i acc _ hs
    rw [seedGo_zero]
    exact hs
  | succ n ih =>
    intro i acc hub hs
    rw [seedGo_succ]
    by_cases hw : pyWeekday (today - (i : Int)) < 5
    · simp only [hw, if_true]
      have hs' : List.Pairwise (fun a b : Int × Nat => b.1 < a.1)
          (acc ++ [(today - (i : Int) + 1, 0)]) := by
        rw [List.pairwise_append]
        refine ⟨hs, List.pairwise_singleton _ _, fun a ha b hb => ?_⟩
        have hb' : b = (today - (i : Int) + 1, 0) := by simpa using hb
        rw [hb']
        exact hub a ha
      have hub' : ∀ q ∈ acc ++ [(today - (i : Int) + 1, 0)],
          today - ((i : Int) + 1) + 1 < q.1 := by
        intro q hq
        rcases List.mem_append.1 hq with hin | hnew
        · have := hub q hin
          omega
        · have hq' : q = (today - (i : Int) + 1, 0) := by simpa using hnew
          rw [hq']
          show today - ((i : Int) + 1) + 1 < today - (i : Int) + 1
          omega
      by_cases hl : (acc ++ [(today - (i : Int) + 1, 0)]).length = 10
      · simp only [hl, if_true]
        exact hs'
      · simp only [hl, if_false]
        apply ih
        · intro q hq
          have := hub' q hq
          push_cast
          push_cast at this
          omega
        · exact hs'
    · simp only [hw, if_false]
      by_cases hl : acc.length = 10
      · simp only [hl, if_true]
        exact hs
      · simp only [hl, if_false]
        apply ih
        · intro q hq
          have := hub q hq
          push_cast
          omega
        · exact hs

theorem seedBuckets_length (today : Int) : (seedBuckets today).length ≤ 10 :=
  seedGo_length_le today 14 0 [] (by simp)

theorem seedBuckets_pairwise (today : Int) :
    List.Pairwise (fun a b : Int × Nat => b.1 < a.1) (seedBuckets today) :=
  seedGo_keys_pairwise today 14 0 [] (by simp) List.Pairwise.nil

theorem seedBuckets_keys_nodup (today : Int) :
    ((seedBuckets today).map (·.1)).Nodup := by
  have h := seedBuckets_pairwise today
  have hmap : List.Pairwise (fun x y : Int => y < x) ((seedBuckets today).map (·.1)) :=
    (List.pairwise_map).2 h
  exact hmap.imp ne_of_gt

theorem seedBuckets_mem (today : Int) :
    ∀ p ∈ seedBuckets today, p.2 = 0 ∧ ∃ j : Nat, j < 14
      ∧ pyWeekday (today - (j : Int)) < 5 ∧ p.1 = today - (j : Int) + 1 := by
  intro p hp
  rcases seedGo_mem today 14 0 [] p hp with h | ⟨j, _, hj2, hj3, hj4⟩
  · simp at h
  · rw [hj4]
    exact ⟨rfl, j, by omega, hj3, rfl⟩

theorem dailyStep_cases (pac : Int → Int) (b : List (Int × Nat)) (e : RawEvent) :
    dailyStep pac b e = b
      ∨ ∃ k, hasKeyI b k = true ∧ dailyStep pac b e = bumpKeyI b k := by
  unfold dailyStep
  cases hts : e.tsIso with
  | none => exact Or.inl rfl
  | some t =>
    by_cases hhas : hasKeyI b (pacDay pac t + 1)
    · cases hd : e.data with
      | none => simp [hhas]
      | some d =>
        cases hls : (getD d "Leadsales" (Val.str "no")).lower? with
        | none => simp [hhas, hls]
        | some ls =>
          by_cases hyes : ls = "yes"
          · simp only [hhas, if_true, hls, hyes]
            exact Or.inr ⟨pacDay pac t + 1, hhas, by simp⟩
          · simp [hhas, hls, hyes]
    · simp [hhas]

theorem dailyStep_keys (pac : Int → Int) (b : List (Int × Nat)) (e : RawEvent) :
    (dailyStep pac b e).map (·.1) = b.map (·.1) := by
  rcases dailyStep_cases pac b e with h | ⟨k, _, h⟩
  · rw [h]
  · rw [h]
    exact keys_mapUpdate b k _

theorem dailyStep_length (pac : Int → Int) (b : List (Int × Nat)) (e : RawEvent) :
    (dailyStep pac b e).length = b.length := by
  rcases dailyStep_cases pac b e with h | ⟨k, _, h⟩
  · rw [h]
  · rw [h]
    exact length_mapUpdate b k _

theorem dailyFold_keys (pac : Int → Int) (data : List RawEvent) :
    ∀ b : List (Int × Nat), (data.foldl (dailyStep pac) b).map (·.1) = b.map (·.1) := by
  induction data with
  | nil => intro b; rfl
  | cons e rest ih =>
    intro b
    rw [List.foldl_cons, ih, dailyStep_keys]

theorem dailyFold_length (pac : Int → Int) (data : List RawEvent) :
    ∀ b : List (Int × Nat), (data.foldl (dailyStep pac) b).length = b.length := by
  induction data with
  | nil => intro b; rfl
  | cons e rest ih =>
    intro b
    rw [List.foldl_cons, ih, dailyStep_length]

theorem dailyStep_alookup (pac : Int → Int) (b : List (Int × Nat)) (e : RawEvent)
    (k : Int) (hk : (alookup b k).isSome = true) :
    alookup (dailyStep pac b e) k =
      if dailyHit pac k e then (alookup b k).map (· + 1) else alookup b k := by
  unfold dailyStep dailyHit
  cases hts : e.tsIso with
  | none => simp
  | some t =>
    by_cases hdk : pacDay pac t + 1 = k
    · have hhas : hasKeyI b (pacDay pac t + 1) = true := by
        unfold hasKeyI
        rw [any_key_eq_isSome, hdk]
        exact hk
      cases hd : e.data with
      | none => simp [hhas, hdk]
      | some d =>
        cases hls : (getD d "Leadsales" (Val.str "no")).lower? with
        | none => simp [hhas, hdk, hls]
        | some ls =>
          by_cases hyes : ls = "yes"
          · simp only [hhas, if_true, hls, hyes]
            unfold bumpKeyI
            rw [hdk, alookup_mapUpdate]
            simp [hdk]
          · simp [hhas, hdk, hls, hyes]
    · have hne : ¬((pacDay pac t + 1 == k) = true) := by simp [hdk]
      by_cases hhas : hasKeyI b (pacDay pac t + 1)
      · cases hd : e.data with
        | none => simp [hhas, hdk]
        | some d =>
          cases hls : (getD d "Leadsales" (Val.str "no")).lower? with
          | none => simp [hhas, hdk, hls]
          | some ls =>
            by_cases hyes : ls = "yes"
            · simp only [hhas, if_true, hls, hyes]
              unfold bumpKeyI
              rw [alookup_mapUpdate]
              have : ¬(k = pacDay pac t + 1) := fun hh => hdk hh.symm
              simp [this, hdk]
            · simp [hhas, hdk, hls, hyes]
      · cases hd : e.data with
        | none => simp [hhas, hdk]
        | some d => simp [hhas, hdk, hne]

theorem dailyFold_alookup (pac : Int → Int) (data : List RawEvent) :
    ∀ (b : List (Int × Nat)) (k : Int), (alookup b k).isSome = true →
      alookup (data.foldl (dailyStep pac) b) k =
        (alookup b k).map (· + data.countP (dailyHit pac k)) := by
  induction data with
  | nil =>
    intro b k _
    cases h : alookup b k <;> simp [h]
  | cons e rest ih =>
    intro b k hk
    rw [List.foldl_cons]
    have hstep := dailyStep_alookup pac b e k hk
    have hk' : (alookup (dailyStep pac b e) k).isSome = true := by
      rw [hstep]
      by_cases hh : dailyHit pac k e <;> simp [hh] <;> simpa using hk
    rw [ih _ _ hk', hstep, List.countP_cons]
    by_cases hh : dailyHit pac k e
    · cases hv : alookup b k with
      | none => rw [hv] at hk; simp at hk
      | some v =>
        simp [hh, hv]
        omega
    · simp [hh]

/-! ## Insertion-sort lemmas -/

theorem insertDescI_perm (p : Int × Nat) (l : List (Int × Nat)) :
    List.Perm (insertDescI p l) (p :: l) := by
  induction l with
  | nil => exact List.Perm.refl _
  | cons q rest ih =>
    unfold insertDescI
    by_cases h : q.1 ≤ p.1
    · simp [h]
    · simp only [h, if_false]
      exact List.Perm.trans (List.Perm.cons q ih) (List.Perm.swap p q rest)

theorem sortDescI_perm (l : List (Int × Nat)) : List.Perm (sortDescI l) l := by
  induction l with
  | nil => exact List.Perm.refl _
  | cons p rest ih =>
    exact List.Perm.trans (insertDescI_perm p (sortDescI rest)) (List.Perm.cons p ih)

theorem insertDescI_sorted (p : Int × Nat) (l : List (Int × Nat))
    (h : List.Pairwise (fun a b : Int × Nat => b.1 ≤ a.1) l) :
    List.Pairwise (fun a b : Int × Nat => b.1 ≤ a.1) (insertDescI p l) := by
  induction l with
  | nil => exact List.pairwise_singleton _ _
  | cons q rest ih =>
    rcases List.pairwise_cons.1 h with ⟨hq, hrest⟩
    unfold insertDescI
    by_cases hqp : q.1 ≤ p.1
    · simp only [hqp, if_true]
      refine List.pairwise_cons.2 ⟨?_, h⟩
      intro x hx
      rcases List.mem_cons.1 hx with hxq | hxr
      · rw [hxq]
        exact hqp
      · exact le_trans (hq x hxr) hqp
    · simp only [hqp, if_false]
      refine List.pairwise_cons.2 ⟨?_, ih hrest⟩
      intro x hx
      have hx' : x ∈ p :: rest := (insertDescI_perm p rest).mem_iff.1 hx
      rcases List.mem_cons.1 hx' with hxp | hxr
      · rw [hxp]
        exact le_of_lt (lt_of_not_le hqp)
      · exact hq x hxr

theorem sortDescI_sorted (l : List (Int × Nat)) :
    List.Pairwise (fun a b : Int × Nat => b.1 ≤ a.1) (sortDescI l) := by
  induction l with
  | nil => exact List.Pairwise.nil
  | cons p rest ih => exact insertDescI_sorted p _ ih

theorem alookup_isSome_iff_mem_keys {κ β : Type} [DecidableEq κ]
    (l : List (κ × β)) (k : κ) :
    (alookup l k).isSome = true ↔ k ∈ l.map (·.1) := by
  induction l with
  | nil => simp [alookup]
  | cons p rest ih =>
    by_cases hp : p.1 = k
    · simp [alookup_cons, hp]
    · have hp' : ¬(k = p.1) := fun hh => hp hh.symm
      simp [alookup_cons, hp, hp', ih]

/-! ## Claim C2 — daily enrollment aggregator -/

/-- Claim C2 (confirmed): `process_daily_enrollments` (i) returns at most 10
entries, (ii) sorted by date key descending (the `%Y-%m-%d` strings of the
window compare as their epoch days), (iii) every returned bucket key is a
weekday within the last 14 Pacific days shifted one day forward and its
count is exactly the number of events whose Z-normalized Pacific-converted
local date plus one day hits the key with `Leadsales` lowercasing to
`"yes"`, and (iv) every pre-seeded bucket key appears in the output with
exactly that count (so events matching no pre-seeded key are silently
ignored and never create buckets). -/
theorem C2_daily_buckets (now : Int) (pac : Int → Int) (data : List RawEvent) :
    (process_daily_enrollments now pac data).length ≤ 10
    ∧ List.Pairwise (fun a b : Int × Nat => b.1 ≤ a.1)
        (process_daily_enrollments now pac data)
    ∧ (∀ p ∈ process_daily_enrollments now pac data,
        (∃ j : Nat, j < 14 ∧ pyWeekday (dayOfMin (now + pac now) - (j : Int)) < 5
          ∧ p.1 = dayOfMin (now + pac now) - (j : Int) + 1)
        ∧ p.2 = data.countP (dailyHit pac p.1))
    ∧ (∀ k : Int, k ∈ (seedBuckets (dayOfMin (now + pac now))).map (·.1) →
        (k, data.countP (dailyHit pac k)) ∈ process_daily_enrollments now pac data) := by
  have hunfold : process_daily_enrollments now pac data
      = (sortDescI (data.foldl (dailyStep pac)
          (seedBuckets (dayOfMin (now + pac now))))).take 10 := rfl
  set today := dayOfMin (now + pac now) with htoday
  set F := data.foldl (dailyStep pac) (seedBuckets today) with hF
  have hlenF : F.length ≤ 10 := by
    rw [hF, dailyFold_length]
    exact seedBuckets_length today
  have hsortlen : (sortDescI F).length = F.length := (sortDescI_perm F).length_eq
  have htake : (sortDescI F).take 10 = sortDescI F :=
    List.take_of_length_le (by omega)
  have hkeysF : F.map (·.1) = (seedBuckets today).map (·.1) := by
    rw [hF]
    exact dailyFold_keys pac data _
  have hndF : (F.map (·.1)).Nodup := by
    rw [hkeysF]
    exact seedBuckets_keys_nodup today
  have hcount : ∀ k : Int, k ∈ (seedBuckets today).map (·.1) →
      alookup F k = some (data.countP (dailyHit pac k)) := by
    intro k hk
    have hsome : (alookup (seedBuckets today) k).isSome = true :=
      (alookup_isSome_iff_mem_keys _ _).2 hk
    obtain ⟨v, hv⟩ := Option.isSome_iff_exists.1 hsome
    have hv0 : v = 0 := (seedBuckets_mem today _ (alookup_some_mem hv)).1
    rw [hF, dailyFold_alookup pac data _ k hsome, hv, hv0]
    simp
  refine ⟨?_, ?_, ?_, ?_⟩
  · rw [hunfold]
    have := List.length_take 10 (sortDescI F)
    omega
  · rw [hunfold, htake]
    exact sortDescI_sorted F
  · intro p hp
    rw [hunfold, htake] at hp
    have hpF : p ∈ F := (sortDescI_perm F).mem_iff.1 hp
    have halk : alookup F p.1 = some p.2 := alookup_of_mem_nodup hndF hpF
    have hkmem : p.1 ∈ (seedBuckets today).map (·.1) := by
      rw [← hkeysF]
      exact List.mem_map_of_mem (·.1) hpF
    have hcnt := hcount p.1 hkmem
    refine ⟨?_, ?_⟩
    · rcases List.mem_map.1 hkmem with ⟨q, hq, hq1⟩
      rcases (seedBuckets_mem today q hq).2 with ⟨j, hj1, hj2, hj3⟩
      exact ⟨j, hj1, hj2, by rw [← hq1, hj3]⟩
    · have := hcnt.symm.trans halk
      exact (Option.some.inj this).symm
  · intro k hk
    have h2 : (k, data.countP (dailyHit pac k)) ∈ F := alookup_some_mem (hcount k hk)
    rw [hunfold, htake]
    exact (sortDescI_perm F).mem_iff.2 h2

/-- Witness for C2 at a concrete input: with "now" at 2026-10-15 12:00 PST
(a Thursday) and one Thursday-noon lead-sale event, the pre-seeded shifted
key 20742 (= 2026-10-16) is in the output with count 1, and the output has
at most 10 entries. -/
theorem C2_daily_buckets_witness :
    ((20742 : Int), [evDaily tsInMonth].countP (dailyHit pacPST 20742))
        ∈ process_daily_enrollments NOWC pacPST [evDaily tsInMonth]
      ∧ (process_daily_enrollments NOWC pacPST [evDaily tsInMonth]).length ≤ 10 :=
  ⟨(C2_daily_buckets NOWC pacPST [evDaily tsInMonth]).2.2.2 20742 (by decide),
    (C2_daily_buckets NOWC pacPST [evDaily tsInMonth]).1⟩

/-! ## Fetcher claims C3, C4, C8 -/

/-- Claim C3, counterexample: the claim states that when all retry attempts
fail and a cached payload exists, the cached payload is returned.  But the
source's final fallback is `if webhook_cache:`, a truthiness test: a cached
EMPTY payload list (a perfectly possible successful fetch result) is falsy,
so with cache `some []` present and three failed attempts the call returns
`none` — not the existing cached payload. -/
theorem C3_counterexample :
    fetch_webhook_data ⟨some [], some 0⟩ 100 (fun _ => AttemptOutcome.timeout)
        = ⟨⟨some [], some 0⟩, none, [1, 2]⟩
      ∧ (⟨some [], some 0⟩ : FetchState).cache ≠ none := by
  constructor
  · decide
  · decide

/-- One failed attempt of the retry loop: sleep (unless final) and retry. -/
theorem attemptLoop_fail_step (now : Int) (oracle : Nat → AttemptOutcome)
    (fuel attempt : Nat) (st : FetchState) (sleeps : List Int)
    (h : (oracle attempt).isSuccess = false) :
    attemptLoop now oracle (fuel + 1) attempt st sleeps =
      attemptLoop now oracle fuel (attempt + 1) st
        (if attempt < MAX_RETRIES - 1
         then sleeps ++ [RETRY_DELAY * ((attempt : Int) + 1)] else sleeps) := by
  conv_lhs => unfold attemptLoop
  cases ho : oracle attempt with
  | success p => rw [ho] at h; simp [AttemptOutcome.isSuccess] at h
  | timeout => rfl
  | reqError => rfl
  | jsonError => rfl

/-- One successful attempt of the retry loop: store and return. -/
theorem attemptLoop_success_step (now : Int) (oracle : Nat → AttemptOutcome)
    (fuel attempt : Nat) (st : FetchState) (sleeps : List Int) (p : List RawEvent)
    (h : oracle attempt = AttemptOutcome.success p) :
    attemptLoop now oracle (fuel + 1) attempt st sleeps
      = ⟨⟨some p, some now⟩, some p, sleeps⟩ := by
  conv_lhs => unfold attemptLoop
  rw [h]

/-- The exhausted retry loop: return the cached payload iff it is truthy. -/
theorem attemptLoop_zero (now : Int) (oracle : Nat → AttemptOutcome)
    (attempt : Nat) (st : FetchState) (sleeps : List Int) :
    attemptLoop now oracle 0 attempt st sleeps =
      (match st.cache with
       | some p => if !p.isEmpty then ⟨st, some p, sleeps⟩ else ⟨st, none, sleeps⟩
       | none => ⟨st, none, sleeps⟩) := rfl

/-- A call all of whose attempts fail leaves the state unchanged and
returns the cached payload iff it is truthy (non-empty). -/
theorem fetch_allfail (st : FetchState) (now : Int) (oracle : Nat → AttemptOutcome)
    (hfail : ∀ i, i < MAX_RETRIES → (oracle i).isSuccess = false) :
    (fetch_webhook_data st now oracle).state = st
    ∧ (fetch_webhook_data st now oracle).ret =
        (match st.cache with
         | some p => if p.isEmpty then none else some p
         | none => none) := by
  have h0 := hfail 0 (by decide)
  have h1 := hfail 1 (by decide)
  have h2 := hfail 2 (by decide)
  unfold fetch_webhook_data
  by_cases hfresh : cacheFresh st now
  · unfold cacheFresh at hfresh
    cases hc : st.cache with
    | none => rw [hc] at hfresh; simp at hfresh
    | some p =>
      cases hl : st.lastSuccess with
      | none => rw [hc, hl] at hfresh; simp at hfresh
      | some t =>
        rw [hc, hl] at hfresh
        simp only [Bool.and_eq_true] at hfresh
        have hne : p.isEmpty = false := by
          rcases hfresh with ⟨hp, _⟩
          simpa using hp
        simp [cacheFresh, hc, hl, hfresh, hne]
  · rw [if_neg hfresh]
    rw [show MAX_RETRIES = 3 from rfl]
    rw [attemptLoop_fail_step now oracle 2 0 st [] h0]
    rw [attemptLoop_fail_step now oracle 1 1 st _ h1]
    rw [attemptLoop_fail_step now oracle 0 2 st _ h2]
    rw [attemptLoop_zero]
    cases hc : st.cache with
    | none => simp
    | some p => by_cases hp : p.isEmpty <;> simp [hp]

/-- Claim C3, amended: if every attempt fails, the cache state is left
unchanged and the call returns the cached payload exactly when it is a
NON-EMPTY list; with no cache, or with a cached empty list, it returns
`none` (the source's `if webhook_cache:` truthiness test). -/
theorem C3_amended (st : FetchState) (now : Int) (oracle : Nat → AttemptOutcome)
    (hfail : ∀ i, i < MAX_RETRIES → (oracle i).isSuccess = false) :
    (fetch_webhook_data st now oracle).state = st
    ∧ (fetch_webhook_data st now oracle).ret =
        (match st.cache with
         | some p => if p.isEmpty then none else some p
         | none => none) :=
  fetch_allfail st now oracle hfail

/-- Witness for C3 (amended) at a concrete input: a stale non-empty cache
survives three failed attempts and is returned. -/
theorem C3_amended_witness :
    (fetch_webhook_data ⟨some [evNothing], some 0⟩ 100
        (fun _ => AttemptOutcome.timeout)).state = ⟨some [evNothing], some 0⟩
      ∧ (fetch_webhook_data ⟨some [evNothing], some 0⟩ 100
          (fun _ => AttemptOutcome.timeout)).ret =
        (match (⟨some [evNothing], some 0⟩ : FetchState).cache with
         | some p => if p.isEmpty then none else some p
         | none => none) :=
  C3_amended ⟨some [evNothing], some 0⟩ 100 (fun _ => AttemptOutcome.timeout)
    (fun i _ => by cases i <;> rfl)

theorem isSuccess_exists {o : AttemptOutcome} (h : o.isSuccess = true) :
    ∃ p, o = AttemptOutcome.success p := by
  cases o with
  | success p => exact ⟨p, rfl⟩
  | timeout => simp [AttemptOutcome.isSuccess] at h
  | reqError => simp [AttemptOutcome.isSuccess] at h
  | jsonError => simp [AttemptOutcome.isSuccess] at h

/-- Claim C4 (confirmed): the webhook cache (payload and success timestamp)
is overwritten only by a verified successful attempt; when every attempt
fails — network error, timeout, or malformed body — the cache state is
exactly the prior one, and any change of state comes from the first
successful attempt storing its payload with the call time. -/
theorem C4_cache_only_on_success (st : FetchState) (now : Int)
    (oracle : Nat → AttemptOutcome) :
    ((∀ i, i < MAX_RETRIES → (oracle i).isSuccess = false) →
      (fetch_webhook_data st now oracle).state = st)
    ∧ ((fetch_webhook_data st now oracle).state ≠ st →
      ∃ i p, i < MAX_RETRIES ∧ oracle i = AttemptOutcome.success p
        ∧ (∀ j, j < i → (oracle j).isSuccess = false)
        ∧ (fetch_webhook_data st now oracle).state = ⟨some p, some now⟩) := by
  constructor
  · intro hfail
    exact (fetch_allfail st now oracle hfail).1
  · intro hne
    by_cases hfresh : cacheFresh st now
    · exfalso
      apply hne
      unfold fetch_webhook_data
      rw [if_pos hfresh]
    · by_cases hs0 : (oracle 0).isSuccess
      · obtain ⟨p, hp⟩ := isSuccess_exists hs0
        refine ⟨0, p, by decide, hp, fun j hj => absurd hj (Nat.not_lt_zero j), ?_⟩
        unfold fetch_webhook_data
        rw [if_neg hfresh, show MAX_RETRIES = 3 from rfl,
          attemptLoop_success_step now oracle 2 0 st [] p hp]
      · have hs0' : (oracle 0).isSuccess = false := by simpa using hs0
        by_cases hs1 : (oracle 1).isSuccess
        · obtain ⟨p, hp⟩ := isSuccess_exists hs1
          refine ⟨1, p, by decide, hp, ?_, ?_⟩
          · intro j hj
            have hj0 : j = 0 := by omega
            rw [hj0]
            exact hs0'
          · unfold fetch_webhook_data
            rw [if_neg hfresh, show MAX_RETRIES = 3 from rfl,
              attemptLoop_fail_step now oracle 2 0 st [] hs0',
              attemptLoop_success_step now oracle 1 1 st _ p hp]
        · have hs1' : (oracle 1).isSuccess = false := by simpa using hs1
          by_cases hs2 : (oracle 2).isSuccess
          · obtain ⟨p, hp⟩ := isSuccess_exists hs2
            refine ⟨2, p, by decide, hp, ?_, ?_⟩
            · intro j hj
              match j, hj with
              | 0, _ => exact hs0'
              | 1, _ => exact hs1'
            · unfold fetch_webhook_data
              rw [if_neg hfresh, show MAX_RETRIES = 3 from rfl,
                attemptLoop_fail_step now oracle 2 0 st [] hs0',
                attemptLoop_fail_step now oracle 1 1 st _ hs1',
                attemptLoop_success_step now oracle 0 2 st _ p hp]
          · exfalso
            apply hne
            have hs2' : (oracle 2).isSuccess = false := by simpa using hs2
            have hfail : ∀ i, i < MAX_RETRIES → (oracle i).isSuccess = false := by
              intro i hi
              match i, hi with
              | 0, _ => exact hs0'
              | 1, _ => exact hs1'
              | 2, _ => exact hs2'
            exact (fetch_allfail st now oracle hfail).1

/-- Witness for C4 at a concrete input: three timeouts leave the (empty)
cache state untouched. -/
theorem C4_cache_only_on_success_witness :
    (fetch_webhook_data ⟨none, none⟩ 0 (fun _ => AttemptOutcome.timeout)).state
      = ⟨none, none⟩ :=
  (C4_cache_only_on_success ⟨none, none⟩ 0 (fun _ => AttemptOutcome.timeout)).1
    (fun _ _ => rfl)

/-- Claim C8 (confirmed): the sleeps a call performs are exactly
`RETRY_DELAY * (attempt index + 1)` — 1 s after the first failed attempt,
2 s after the second — for each failed attempt that precedes another
attempt; no sleep follows the final attempt, and a fresh-cache hit
sleeps not at all (linear backoff, despite the source's comment saying
"exponential"). -/
theorem C8_linear_backoff (st : FetchState) (now : Int)
    (oracle : Nat → AttemptOutcome) :
    (fetch_webhook_data st now oracle).sleeps =
      (if cacheFresh st now then []
       else (List.range (min (failuresBeforeSuccess oracle) (MAX_RETRIES - 1))).map
         (fun i => RETRY_DELAY * ((i : Int) + 1))) := by
  unfold fetch_webhook_data
  by_cases hfresh : cacheFresh st now
  · simp [hfresh]
  · rw [if_neg hfresh, if_neg hfresh, show MAX_RETRIES = 3 from rfl]
    by_cases hs0 : (oracle 0).isSuccess
    · obtain ⟨p, hp⟩ := isSuccess_exists hs0
      rw [attemptLoop_success_step now oracle 2 0 st [] p hp]
      simp [failuresBeforeSuccess, hs0]
    · have hs0' : (oracle 0).isSuccess = false := by simpa using hs0
      rw [attemptLoop_fail_step now oracle 2 0 st [] hs0']
      by_cases hs1 : (oracle 1).isSuccess
      · obtain ⟨p, hp⟩ := isSuccess_exists hs1
        rw [attemptLoop_success_step now oracle 1 1 st _ p hp]
        simp [failuresBeforeSuccess, hs0', hs1, MAX_RETRIES, RETRY_DELAY, List.range_succ]
      · have hs1' : (oracle 1).isSuccess = false := by simpa using hs1
        rw [attemptLoop_fail_step now oracle 1 1 st _ hs1']
        by_cases hs2 : (oracle 2).isSuccess
        · obtain ⟨p, hp⟩ := isSuccess_exists hs2
          rw [attemptLoop_success_step now oracle 0 2 st _ p hp]
          simp [failuresBeforeSuccess, hs0', hs1', hs2, MAX_RETRIES, RETRY_DELAY,
            List.range_succ]
        · have hs2' : (oracle 2).isSuccess = false := by simpa using hs2
          rw [attemptLoop_fail_step now oracle 0 2 st _ hs2', attemptLoop_zero]
          cases hc : st.cache with
          | none =>
            simp [failuresBeforeSuccess, hs0', hs1', hs2', MAX_RETRIES, RETRY_DELAY,
              List.range_succ]
          | some p =>
            by_cases hp2 : p.isEmpty <;>
              simp [hp2, failuresBeforeSuccess, hs0', hs1', hs2', MAX_RETRIES,
                RETRY_DELAY, List.range_succ]

/-! ## Officer-dict lemmas (claims C6, C7) -/

theorem alookup_ensureOff (l : List (Val × Officer)) (k k' : Val) :
    alookup (ensureOff l k) k' =
      (if k' = k ∧ alookup l k = none then some ⟨k, 0, 0⟩ else alookup l k') := by
  unfold ensureOff
  by_cases h : l.any (fun p => p.1 == k)
  · rw [if_pos h]
    have hs : (alookup l k).isSome = true := by rw [← any_key_eq_isSome]; exact h
    obtain ⟨o, ho⟩ := Option.isSome_iff_exists.1 hs
    simp [ho]
  · rw [if_neg h, alookup_append_single]
    have hn : alookup l k = none := by
      rw [any_key_eq_isSome] at h
      exact Option.not_isSome_iff_eq_none.1 (by simpa using h)
    by_cases hk : k' = k
    · subst hk
      simp [hn]
    · have hk2 : ¬k = k' := fun hh => hk hh.symm
      cases hval : alookup l k' with
      | some w => simp [hval, hk, hn]
      | none => simp [hval, hk, hk2, hn]

theorem alookup_ensureOff_self (l : List (Val × Officer)) (k : Val) :
    alookup (ensureOff l k) k = some ((alookup l k).getD ⟨k, 0, 0⟩) := by
  rw [alookup_ensureOff]
  cases h : alookup l k with
  | none => simp [h]
  | some o => simp [h]

theorem alookup_bumpDemos (l : List (Val × Officer)) (k k' : Val) :
    alookup (bumpDemos l k) k' =
      (if k' = k
       then (alookup l k').map (fun o => { o with demos := o.demos + 1 })
       else alookup l k') :=
  alookup_mapUpdate l k k' _

theorem alookup_addValue (l : List (Val × Officer)) (k k' : Val) (q : ℚ) :
    alookup (addValue l k q) k' =
      (if k' = k
       then (alookup l k').map (fun o => { o with value := o.value + q })
       else alookup l k') :=
  alookup_mapUpdate l k k' _

theorem adminStep_alookup (m : Int) (pac : Int → Int) (acc : List (Val × Officer))
    (e : RawEvent) (k : Val) :
    alookup (adminStep m pac acc e) k =
      (match alookup acc k with
       | some o => some ⟨o.name, o.value + adminValC m pac k e,
           o.demos + adminDemoC m pac k e⟩
       | none => if adminCreates m pac k e
           then some ⟨k, adminValC m pac k e, adminDemoC m pac k e⟩ else none) := by
  cases hts : e.tsStrp with
  | none =>
    have hstep : adminStep m pac acc e = acc := by simp [adminStep, hts]
    have hcr : adminCreates m pac k e = false := by simp [adminCreates, hts]
    have hval : adminValC m pac k e = 0 := by simp [adminValC, hts]
    have hdem : adminDemoC m pac k e = 0 := by simp [adminDemoC, hts]
    rw [hstep, hcr, hval, hdem]
    cases h : alookup acc k <;> simp [h]
  | some t =>
    cases hd : e.data with
    | none =>
      have hstep : adminStep m pac acc e = acc := by simp [adminStep, hts, hd]
      have hcr : adminCreates m pac k e = false := by simp [adminCreates, hts, hd]
      have hval : adminValC m pac k e = 0 := by simp [adminValC, hts, hd]
      have hdem : adminDemoC m pac k e = 0 := by simp [adminDemoC, hts, hd]
      rw [hstep, hcr, hval, hdem]
      cases h : alookup acc k <;> simp [h]
    | some d =>
      by_cases hm : monthOfDay (pacDay pac t) = m
      · by_cases hofk : getD d "SetOfficerName" (Val.str "") = k
        · have hcr : adminCreates m pac k e = true := by
            simp [adminCreates, hts, hd, hm, officerKeyOf, hofk]
          cases hls : (getD d "Leadsales" (Val.str "no")).lower? with
          | none =>
            have hstep : adminStep m pac acc e = ensureOff acc k := by
              simp [adminStep, hts, hd, hm, hls, hofk]
            have hval : adminValC m pac k e = 0 := by
              simp [adminValC, hts, hd, hm, officerKeyOf, hofk, hls]
            have hdem : adminDemoC m pac k e = 0 := by
              simp [adminDemoC, hts, hd, hm, officerKeyOf, hofk, hls]
            rw [hstep, hcr, hval, hdem, alookup_ensureOff_self]
            cases h : alookup acc k <;> simp [h]
          | some ls =>
            by_cases hyes : ls = "yes"
            · have hdem : adminDemoC m pac k e = 1 := by
                simp [adminDemoC, hts, hd, hm, officerKeyOf, hofk, hls, hyes]
              cases hpay : payAmount? (getD d "Paymentamount" (Val.str "0")) with
              | none =>
                have hstep : adminStep m pac acc e
                    = bumpDemos (ensureOff acc k) k := by
                  simp [adminStep, hts, hd, hm, hls, hyes, hpay, hofk]
                have hval : adminValC m pac k e = 0 := by
                  simp [adminValC, hts, hd, hm, officerKeyOf, hofk, hls, hpay]
                rw [hstep, hcr, hval, hdem, alookup_bumpDemos, if_pos rfl,
                  alookup_ensureOff_self]
                cases h : alookup acc k <;> simp [h]
              | some q =>
                have hstep : adminStep m pac acc e
                    = addValue (bumpDemos (ensureOff acc k) k) k q := by
                  simp [adminStep, hts, hd, hm, hls, hyes, hpay, hofk]
                have hval : adminValC m pac k e = q := by
                  simp [adminValC, hts, hd, hm, officerKeyOf, hofk, hls, hpay]
                rw [hstep, hcr, hval, hdem, alookup_addValue, if_pos rfl,
                  alookup_bumpDemos, if_pos rfl, alookup_ensureOff_self]
                cases h : alookup acc k <;> simp [h]
            · have hdem : adminDemoC m pac k e = 0 := by
                simp [adminDemoC, hts, hd, hm, officerKeyOf, hofk, hls, hyes]
              cases hpay : payAmount? (getD d "Paymentamount" (Val.str "0")) with
              | none =>
                have hstep : adminStep m pac acc e = ensureOff acc k := by
                  simp [adminStep, hts, hd, hm, hls, hyes, hpay, hofk]
                have hval : adminValC m pac k e = 0 := by
                  simp [adminValC, hts, hd, hm, officerKeyOf, hofk, hls, hpay]
                rw [hstep, hcr, hval, hdem, alookup_ensureOff_self]
                cases h : alookup acc k <;> simp [h]
              | some q =>
                have hstep : adminStep m pac acc e
                    = addValue (ensureOff acc k) k q := by
                  simp [adminStep, hts, hd, hm, hls, hyes, hpay, hofk]
                have hval : adminValC m pac k e = q := by
                  simp [adminValC, hts, hd, hm, officerKeyOf, hofk, hls, hpay]
                rw [hstep, hcr, hval, hdem, alookup_addValue, if_pos rfl,
                  alookup_ensureOff_self]
                cases h : alookup acc k <;> simp [h]
        · -- the event is owned by another officer: no effect at key k
          have hkne : ¬(k = getD d "SetOfficerName" (Val.str "")) :=
            fun hh => hofk hh.symm
          have hcr : adminCreates m pac k e = false := by
            simp [adminCreates, hts, hd, hm, officerKeyOf, hofk]
          have hval : adminValC m pac k e = 0 := by
            simp [adminValC, hts, hd, hm, officerKeyOf, hofk]
          have hdem : adminDemoC m pac k e = 0 := by
            simp [adminDemoC, hts, hd, hm, officerKeyOf, hofk]
          have hens : alookup (ensureOff acc (getD d "SetOfficerName" (Val.str ""))) k
              = alookup acc k := by
            rw [alookup_ensureOff]
            simp [hkne]
          cases hls : (getD d "Leadsales" (Val.str "no")).lower? with
          | none =>
            have hstep : adminStep m pac acc e
                = ensureOff acc (getD d "SetOfficerName" (Val.str "")) := by
              simp [adminStep, hts, hd, hm, hls]
            rw [hstep, hcr, hval, hdem, hens]
            cases h : alookup acc k <;> simp [h]
          | some ls =>
            by_cases hyes : ls = "yes"
            · cases hpay : payAmount? (getD d "Paymentamount" (Val.str "0")) with
              | none =>
                have hstep : adminStep m pac acc e
                    = bumpDemos (ensureOff acc (getD d "SetOfficerName" (Val.str "")))
                        (getD d "SetOfficerName" (Val.str "")) := by
                  simp [adminStep, hts, hd, hm, hls, hyes, hpay]
                rw [hstep, hcr, hval, hdem, alookup_bumpDemos, if_neg hkne, hens]
                cases h : alookup acc k <;> simp [h]
              | some q =>
                have hstep : adminStep m pac acc e
                    = addValue (bumpDemos (ensureOff acc (getD d "SetOfficerName" (Val.str "")))
                        (getD d "SetOfficerName" (Val.str "")))
                        (getD d "SetOfficerName" (Val.str "")) q := by
                  simp [adminStep, hts, hd, hm, hls, hyes, hpay]
                rw [hstep, hcr, hval, hdem, alookup_addValue, if_neg hkne,
                  alookup_bumpDemos, if_neg hkne, hens]
                cases h : alookup acc k <;> simp [h]
            · cases hpay : payAmount? (getD d "Paymentamount" (Val.str "0")) with
              | none =>
                have hstep : adminStep m pac acc e
                    = ensureOff acc (getD d "SetOfficerName" (Val.str "")) := by
                  simp [adminStep, hts, hd, hm, hls, hyes, hpay]
                rw [hstep, hcr, hval, hdem, hens]
                cases h : alookup acc k <;> simp [h]
              | some q =>
                have hstep : adminStep m pac acc e
                    = addValue (ensureOff acc (getD d "SetOfficerName" (Val.str "")))
                        (getD d "SetOfficerName" (Val.str "")) q := by
                  simp [adminStep, hts, hd, hm, hls, hyes, hpay]
                rw [hstep, hcr, hval, hdem, alookup_addValue, if_neg hkne, hens]
                cases h : alookup acc k <;> simp [h]
      · have hstep : adminStep m pac acc e = acc := by simp [adminStep, hts, hd, hm]
        have hcr : adminCreates m pac k e = false := by
          simp [adminCreates, hts, hd, hm]
        have hval : adminValC m pac k e = 0 := by simp [adminValC, hts, hd, hm]
        have hdem : adminDemoC m pac k e = 0 := by simp [adminDemoC, hts, hd, hm]
        rw [hstep, hcr, hval, hdem]
        cases h : alookup acc k <;> simp [h]

theorem revStep_alookup (m : Int) (pac : Int → Int) (acc : List (Val × Officer))
    (e : RawEvent) (k : Val) :
    alookup (revStep m pac acc e) k =
      (match alookup acc k with
       | some o => some ⟨o.name, o.value + revValC m pac k e, o.demos⟩
       | none => if adminCreates m pac k e
           then some ⟨k, revValC m pac k e, 0⟩ else none) := by
  cases hts : e.tsStrp with
  | none =>
    have hstep : revStep m pac acc e = acc := by simp [revStep, hts]
    have hcr : adminCreates m pac k e = false := by simp [adminCreates, hts]
    have hval : revValC m pac k e = 0 := by simp [revValC, hts]
    rw [hstep, hcr, hval]
    cases h : alookup acc k <;> simp [h]
  | some t =>
    cases hd : e.data with
    | none =>
      have hstep : revStep m pac acc e = acc := by simp [revStep, hts, hd]
      have hcr : adminCreates m pac k e = false := by simp [adminCreates, hts, hd]
      have hval : revValC m pac k e = 0 := by simp [revValC, hts, hd]
      rw [hstep, hcr, hval]
      cases h : alookup acc k <;> simp [h]
    | some d =>
      by_cases hm : monthOfDay (pacDay pac t) = m
      · by_cases hofk : getD d "SetOfficerName" (Val.str "") = k
        · have hcr : adminCreates m pac k e = true := by
            simp [adminCreates, hts, hd, hm, officerKeyOf, hofk]
          cases hpay : payAmount? (getD d "Paymentamount" (Val.str "0")) with
          | none =>
            have hstep : revStep m pac acc e = ensureOff acc k := by
              simp [revStep, hts, hd, hm, hpay, hofk]
            have hval : revValC m pac k e = 0 := by
              simp [revValC, hts, hd, hm, officerKeyOf, hofk, hpay]
            rw [hstep, hcr, hval, alookup_ensureOff_self]
            cases h : alookup acc k <;> simp [h]
          | some q =>
            have hstep : revStep m pac acc e = addValue (ensureOff acc k) k q := by
              simp [revStep, hts, hd, hm, hpay, hofk]
            have hval : revValC m pac k e = q := by
              simp [revValC, hts, hd, hm, officerKeyOf, hofk, hpay]
            rw [hstep, hcr, hval, alookup_addValue, if_pos rfl, alookup_ensureOff_self]
            cases h : alookup acc k <;> simp [h]
        · have hkne : ¬(k = getD d "SetOfficerName" (Val.str "")) :=
            fun hh => hofk hh.symm
          have hcr : adminCreates m pac k e = false := by
            simp [adminCreates, hts, hd, hm, officerKeyOf, hofk]
          have hval : revValC m pac k e = 0 := by
            simp [revValC, hts, hd, hm, officerKeyOf, hofk]
          have hens : alookup (ensureOff acc (getD d "SetOfficerName" (Val.str ""))) k
              = alookup acc k := by
            rw [alookup_ensureOff]
            simp [hkne]
          cases hpay : payAmount? (getD d "Paymentamount" (Val.str "0")) with
          | none =>
            have hstep : revStep m pac acc e
                = ensureOff acc (getD d "SetOfficerName" (Val.str "")) := by
              simp [revStep, hts, hd, hm, hpay]
            rw [hstep, hcr, hval, hens]
            cases h : alookup acc k <;> simp [h]
          | some q =>
            have hstep : revStep m pac acc e
                = addValue (ensureOff acc (getD d "SetOfficerName" (Val.str "")))
                    (getD d "SetOfficerName" (Val.str "")) q := by
              simp [revStep, hts, hd, hm, hpay]
            rw [hstep, hcr, hval, alookup_addValue, if_neg hkne, hens]
            cases h : alookup acc k <;> simp [h]
      · have hstep : revStep m pac acc e = acc := by simp [revStep, hts, hd, hm]
        have hcr : adminCreates m pac k e = false := by
          simp [adminCreates, hts, hd, hm]
        have hval : revValC m pac k e = 0 := by simp [revValC, hts, hd, hm]
        rw [hstep, hcr, hval]
        cases h : alookup acc k <;> simp [h]

/-- Left folds of an officer step whose per-key effect is described by
creation flag `cr` and contributions `vC`, `dC`: the final entry under a key
accumulates the per-event sums. -/
theorem fold_officer {α : Type} (step : List (Val × Officer) → α → List (Val × Officer))
    (cr : α → Bool) (vC : α → ℚ) (dC : α → Nat) (k : Val)
    (hstep : ∀ acc e, alookup (step acc e) k =
      (match alookup acc k with
       | some o => some ⟨o.name, o.value + vC e, o.demos + dC e⟩
       | none => if cr e then some ⟨k, vC e, dC e⟩ else none))
    (hz : ∀ e, cr e = false → vC e = 0 ∧ dC e = 0) :
    ∀ (l : List α) (acc : List (Val × Officer)),
      alookup (l.foldl step acc) k =
        (match alookup acc k with
         | some o => some ⟨o.name, o.value + (l.map vC).sum, o.demos + (l.map dC).sum⟩
         | none =>
           if l.countP cr = 0 then none
           else some ⟨k, (l.map vC).sum, (l.map dC).sum⟩) := by
  intro l
  induction l with
  | nil =>
    intro acc
    cases h : alookup acc k <;> simp [h]
  | cons e rest ih =>
    intro acc
    rw [List.foldl_cons, ih, hstep]
    cases h : alookup acc k with
    | some o =>
      simp only [List.map_cons, List.sum_cons]
      simp [add_assoc]
    | none =>
      by_cases hcr : cr e
      · simp only [hcr, if_true, List.map_cons, List.sum_cons, List.countP_cons]
        simp [hcr]
      · rcases hz e (by simpa using hcr) with ⟨hv0, hd0⟩
        simp [hcr, hv0, hd0, List.countP_cons]

theorem adminStep_shape (m : Int) (pac : Int → Int) (acc : List (Val × Officer))
    (e : RawEvent) :
    adminStep m pac acc e = acc
    ∨ ∃ (off : Val) (db : Bool) (qo : Option ℚ),
        adminStep m pac acc e =
          (match qo with
           | none => if db then bumpDemos (ensureOff acc off) off else ensureOff acc off
           | some q => addValue (if db then bumpDemos (ensureOff acc off) off
               else ensureOff acc off) off q) := by
  cases hts : e.tsStrp with
  | none => exact Or.inl (by simp [adminStep, hts])
  | some t =>
    cases hd : e.data with
    | none => exact Or.inl (by simp [adminStep, hts, hd])
    | some d =>
      by_cases hm : monthOfDay (pacDay pac t) = m
      · cases hls : (getD d "Leadsales" (Val.str "no")).lower? with
        | none =>
          exact Or.inr ⟨getD d "SetOfficerName" (Val.str ""), false, none,
            by simp [adminStep, hts, hd, hm, hls]⟩
        | some ls =>
          by_cases hyes : ls = "yes"
          · cases hpay : payAmount? (getD d "Paymentamount" (Val.str "0")) with
            | none =>
              exact Or.inr ⟨getD d "SetOfficerName" (Val.str ""), true, none,
                by simp [adminStep, hts, hd, hm, hls, hyes, hpay]⟩
            | some q =>
              exact Or.inr ⟨getD d "SetOfficerName" (Val.str ""), true, some q,
                by simp [adminStep, hts, hd, hm, hls, hyes, hpay]⟩
          · cases hpay : payAmount? (getD d "Paymentamount" (Val.str "0")) with
            | none =>
              exact Or.inr ⟨getD d "SetOfficerName" (Val.str ""), false, none,
                by simp [adminStep, hts, hd, hm, hls, hyes, hpay]⟩
            | some q =>
              exact Or.inr ⟨getD d "SetOfficerName" (Val.str ""), false, some q,
                by simp [adminStep, hts, hd, hm, hls, hyes, hpay]⟩
      · exact Or.inl (by simp [adminStep, hts, hd, hm])

theorem revStep_shape (m : Int) (pac : Int → Int) (acc : List (Val × Officer))
    (e : RawEvent) :
    revStep m pac acc e = acc
    ∨ ∃ (off : Val) (qo : Option ℚ),
        revStep m pac acc e =
          (match qo with
           | none => ensureOff acc off
           | some q => addValue (ensureOff acc off) off q) := by
  cases hts : e.tsStrp with
  | none => exact Or.inl (by simp [revStep, hts])
  | some t =>
    cases hd : e.data with
    | none => exact Or.inl (by simp [revStep, hts, hd])
    | some d =>
      by_cases hm : monthOfDay (pacDay pac t) = m
      · cases hpay : payAmount? (getD d "Paymentamount" (Val.str "0")) with
        | none =>
          exact Or.inr ⟨getD d "SetOfficerName" (Val.str ""), none,
            by simp [revStep, hts, hd, hm, hpay]⟩
        | some q =>
          exact Or.inr ⟨getD d "SetOfficerName" (Val.str ""), some q,
            by simp [revStep, hts, hd, hm, hpay]⟩
      · exact Or.inl (by simp [revStep, hts, hd, hm])

theorem names_ensureOff (l : List (Val × Officer)) (k : Val)
    (h : ∀ p ∈ l, p.2.name = p.1) : ∀ p ∈ ensureOff l k, p.2.name = p.1 := by
  intro p hp
  unfold ensureOff at hp
  by_cases ha : l.any (fun p => p.1 == k)
  · rw [if_pos ha] at hp
    exact h p hp
  · rw [if_neg ha] at hp
    rcases List.mem_append.1 hp with h1 | h2
    · exact h p h1
    · have hp2 : p = (k, (⟨k, 0, 0⟩ : Officer)) := by simpa using h2
      rw [hp2]

theorem names_mapUpdate (l : List (Val × Officer)) (k : Val) (f : Officer → Officer)
    (hf : ∀ o : Officer, (f o).name = o.name)
    (h : ∀ p ∈ l, p.2.name = p.1) : ∀ p ∈ mapUpdate l k f, p.2.name = p.1 := by
  intro p hp
  unfold mapUpdate at hp
  rcases List.mem_map.1 hp with ⟨p0, hp0, heq⟩
  by_cases hk : p0.1 = k
  · rw [← heq]
    simp only [hk, if_pos rfl]
    have : (f p0.2).name = p0.2.name := hf p0.2
    simp [hk] at this ⊢
    rw [this]
    have := h p0 hp0
    rw [this, hk]
  · rw [← heq]
    simp only [beq_iff_eq, hk, if_false]
    exact h p0 hp0

theorem names_adminStep (m : Int) (pac : Int → Int) (acc : List (Val × Officer))
    (e : RawEvent) (h : ∀ p ∈ acc, p.2.name = p.1) :
    ∀ p ∈ adminStep m pac acc e, p.2.name = p.1 := by
  rcases adminStep_shape m pac acc e with hs | ⟨off, db, qo, hs⟩
  · rw [hs]
    exact h
  · rw [hs]
    have h1 : ∀ p ∈ ensureOff acc off, p.2.name = p.1 := names_ensureOff acc off h
    have h2 : ∀ p ∈ (if db then bumpDemos (ensureOff acc off) off
        else ensureOff acc off), p.2.name = p.1 := by
      cases db with
      | false => simpa using h1
      | true =>
        simp only [if_true]
        exact names_mapUpdate _ off _ (fun o => rfl) h1
    cases qo with
    | none => simpa using h2
    | some q => exact names_mapUpdate _ off _ (fun o => rfl) h2

theorem names_revStep (m : Int) (pac : Int → Int) (acc : List (Val × Officer))
    (e : RawEvent) (h : ∀ p ∈ acc, p.2.name = p.1) :
    ∀ p ∈ revStep m pac acc e, p.2.name = p.1 := by
  rcases revStep_shape m pac acc e with hs | ⟨off, qo, hs⟩
  · rw [hs]
    exact h
  · rw [hs]
    have h1 : ∀ p ∈ ensureOff acc off, p.2.name = p.1 := names_ensureOff acc off h
    cases qo with
    | none => simpa using h1
    | some q => exact names_mapUpdate _ off _ (fun o => rfl) h1

theorem names_adminFold (m : Int) (pac : Int → Int) (data : List RawEvent) :
    ∀ acc : List (Val × Officer), (∀ p ∈ acc, p.2.name = p.1) →
      ∀ p ∈ data.foldl (adminStep m pac) acc, p.2.name = p.1 := by
  induction data with
  | nil => intro acc h; exact h
  | cons e rest ih =>
    intro acc h
    rw [List.foldl_cons]
    exact ih _ (names_adminStep m pac acc e h)

theorem names_revFold (m : Int) (pac : Int → Int) (data : List RawEvent) :
    ∀ acc : List (Val × Officer), (∀ p ∈ acc, p.2.name = p.1) →
      ∀ p ∈ data.foldl (revStep m pac) acc, p.2.name = p.1 := by
  induction data with
  | nil => intro acc h; exact h
  | cons e rest ih =>
    intro acc h
    rw [List.foldl_cons]
    exact ih _ (names_revStep m pac acc e h)

/-- Looking an officer up by name in the values list is the dict lookup,
provided every entry's name is its key. -/
theorem find?_name_eq_alookup (l : List (Val × Officer)) (k : Val)
    (h : ∀ p ∈ l, p.2.name = p.1) :
    (l.map (·.2)).find? (fun o => o.name == k) = alookup l k := by
  induction l with
  | nil => rfl
  | cons p rest ih =>
    have hname : p.2.name = p.1 := h p (List.mem_cons_self p rest)
    by_cases hk : p.1 = k
    · rw [List.map_cons, List.find?_cons_of_pos _ (by simp [hname, hk]),
        alookup_cons, if_pos hk]
    · rw [List.map_cons, List.find?_cons_of_neg _ (by simp [hname, hk]),
        alookup_cons, if_neg hk]
      exact ih (fun q hq => h q (List.mem_cons_of_mem _ hq))

theorem adminContrib_zero (m : Int) (pac : Int → Int) (k : Val) (e : RawEvent)
    (h : adminCreates m pac k e = false) :
    adminValC m pac k e = 0 ∧ adminDemoC m pac k e = 0 := by
  unfold adminCreates at h
  cases hts : e.tsStrp with
  | none => simp [adminValC, adminDemoC, hts]
  | some t =>
    cases hd : e.data with
    | none => simp [adminValC, adminDemoC, hts, hd]
    | some d =>
      rw [hts, hd] at h
      have h' : ((monthOfDay (pacDay pac t) == m) && (officerKeyOf d == k)) = false := h
      constructor <;> simp only [adminValC, adminDemoC, hts, hd] <;> rw [h'] <;> simp

/-! ## Claim C6 — monthly revenue aggregator (Contract A) -/

/-- Claim C6, counterexample: the claim describes the amount transformation
as stripping a LEADING `"$"` (then commas) before parsing, with unparsable
amounts skipped.  The source's `strip('$')` also strips TRAILING dollar
signs: for the amount `"300$"` the claim's transformation leaves an
unparsable string — so per the claim the amount would be skipped and the
officer's total left at 0 — yet the code adds 300. -/
theorem C6_counterexample :
    process_admin_monthly_revenue NOWC pacPST [evPay (Val.str "300$")]
        = [⟨Val.str "X", 300, 0⟩]
      ∧ parsePyFloat (dropCommas (specStripLeadingDollar "300$")) = none := by
  constructor
  · have hm2 : monthOfDay (dayOfMin (NOWC + pacPST NOWC)) = 10 := by decide
    have hm : monthOfDay (pacDay pacPST tsInMonth) = 10 := by decide
    have hg1 : getD [("SetOfficerName", Val.str "X"), ("Paymentamount", Val.str "300$")]
        "SetOfficerName" (Val.str "") = Val.str "X" := by decide
    have hg2 : getD [("SetOfficerName", Val.str "X"), ("Paymentamount", Val.str "300$")]
        "Leadsales" (Val.str "no") = Val.str "no" := by decide
    have hg3 : getD [("SetOfficerName", Val.str "X"), ("Paymentamount", Val.str "300$")]
        "Paymentamount" (Val.str "0") = Val.str "300$" := by decide
    have hlow : (Val.str "no").lower? = some "no" := by decide
    have hpay : payAmount? (Val.str "300$") = some ((300 : ℚ) / 10 ^ 0) :=
      payAmount_pos_eval "300$" 300 0 ['3', '0', '0']
        (by decide) (by decide) (by decide) (by decide)
    simp [process_admin_monthly_revenue, adminStep, evPay, hm, hm2, hg1, hg2, hg3,
      hlow, hpay, ensureOff, alookup, mapUpdate, bumpDemos, addValue]
  · have h : dropCommas (specStripLeadingDollar "300$") = "300$" := by decide
    rw [h]
    exact parsePyFloat_none_eval "300$" false ['3', '0', '0', '$']
      (by decide) (by decide)

/-- Claim C6, amended: in `process_admin_monthly_revenue`, each event whose
Pacific-converted timestamp has the current month NUMBER has its
`Paymentamount` stripped of leading AND trailing `"$"` characters and of
all commas, parsed as a decimal number, and added to the officer's running
value; a falsy, non-string, or unparsable amount is skipped without
altering the running total (in the demos variant a non-string `Leadsales`
aborts the entry before the payment).  In particular `"$1,200.50"` and
`"300"` for the same officer sum to 1500.50, and a further `"N/A"` amount
leaves the total at 1500.50. -/
theorem C6_amended :
    (∀ (now : Int) (pac : Int → Int) (data : List RawEvent) (k : Val),
      (process_admin_monthly_revenue now pac data).find? (fun o => o.name == k) =
        (if data.countP (adminCreates (monthOfDay (dayOfMin (now + pac now))) pac k) = 0
         then none
         else some ⟨k,
           (data.map (adminValC (monthOfDay (dayOfMin (now + pac now))) pac k)).sum,
           (data.map (adminDemoC (monthOfDay (dayOfMin (now + pac now))) pac k)).sum⟩))
    ∧ process_admin_monthly_revenue NOWC pacPST
        [evPay (Val.str "$1,200.50"), evPay (Val.str "300")]
      = [⟨Val.str "X", 3001 / 2, 0⟩]
    ∧ process_admin_monthly_revenue NOWC pacPST
        [evPay (Val.str "$1,200.50"), evPay (Val.str "300"), evPay (Val.str "N/A")]
      = [⟨Val.str "X", 3001 / 2, 0⟩] := by
  have hgo : ∀ amt : Val, getD [("SetOfficerName", Val.str "X"), ("Paymentamount", amt)]
      "SetOfficerName" (Val.str "") = Val.str "X" := fun _ => rfl
  have hgl : ∀ amt : Val, getD [("SetOfficerName", Val.str "X"), ("Paymentamount", amt)]
      "Leadsales" (Val.str "no") = Val.str "no" := fun _ => rfl
  have hgp : ∀ amt : Val, getD [("SetOfficerName", Val.str "X"), ("Paymentamount", amt)]
      "Paymentamount" (Val.str "0") = amt := fun _ => rfl
  have hm2 : monthOfDay (dayOfMin (NOWC + pacPST NOWC)) = 10 := by decide
  have hm : monthOfDay (pacDay pacPST tsInMonth) = 10 := by decide
  have hlow : (Val.str "no").lower? = some "no" := by decide
  have hpay1 : payAmount? (Val.str "$1,200.50") = some ((120050 : ℚ) / 10 ^ 2) :=
    payAmount_pos_eval "$1,200.50" 120050 2 ['1', '2', '0', '0', '.', '5', '0']
      (by decide) (by decide) (by decide) (by decide)
  have hpay2 : payAmount? (Val.str "300") = some ((300 : ℚ) / 10 ^ 0) :=
    payAmount_pos_eval "300" 300 0 ['3', '0', '0']
      (by decide) (by decide) (by decide) (by decide)
  have hpay3 : payAmount? (Val.str "N/A") = none :=
    payAmount_none_eval "N/A" false ['N', '/', 'A'] (by decide) (by decide) (by decide)
  refine ⟨?_, ?_, ?_⟩
  case refine_2 =>
    simp [process_admin_monthly_revenue, adminStep, evPay, hm, hm2, hgo, hgl, hgp,
      hlow, hpay1, hpay2, ensureOff, alookup, mapUpdate, bumpDemos, addValue]
    norm_num
  case refine_3 =>
    simp [process_admin_monthly_revenue, adminStep, evPay, hm, hm2, hgo, hgl, hgp,
      hlow, hpay1, hpay2, hpay3, ensureOff, alookup, mapUpdate, bumpDemos, addValue]
    norm_num
  intro now pac data k
  have hunfold : process_admin_monthly_revenue now pac data
      = (data.foldl (adminStep (monthOfDay (dayOfMin (now + pac now))) pac) []).map (·.2) :=
    rfl
  rw [hunfold,
    find?_name_eq_alookup _ k
      (names_adminFold (monthOfDay (dayOfMin (now + pac now))) pac data [] (by simp)),
    fold_officer (adminStep (monthOfDay (dayOfMin (now + pac now))) pac)
      (adminCreates (monthOfDay (dayOfMin (now + pac now))) pac k)
      (adminValC (monthOfDay (dayOfMin (now + pac now))) pac k)
      (adminDemoC (monthOfDay (dayOfMin (now + pac now))) pac k) k
      (fun acc e => adminStep_alookup (monthOfDay (dayOfMin (now + pac now))) pac acc e k)
      (fun e hcr => adminContrib_zero (monthOfDay (dayOfMin (now + pac now))) pac k e hcr)
      data []]
  simp [alookup]

/-! ## Claim C7 — the two revenue variants -/

theorem stripDemos_ensureOff (l : List (Val × Officer)) (k : Val) :
    stripDemos (ensureOff l k) = ensureOff (stripDemos l) k := by
  have hany : ((stripDemos l).any (fun p => p.1 == k)) = (l.any (fun p => p.1 == k)) := by
    induction l with
    | nil => rfl
    | cons p rest ih => simp [stripDemos, List.any_cons] at ih ⊢; rw [ih]
  unfold ensureOff
  rw [hany]
  by_cases h : l.any (fun p => p.1 == k)
  · simp [h]
  · simp [h, stripDemos]

theorem stripDemos_bumpDemos (l : List (Val × Officer)) (k : Val) :
    stripDemos (bumpDemos l k) = stripDemos l := by
  unfold stripDemos bumpDemos mapUpdate
  rw [List.map_map]
  apply List.map_congr_left
  intro p _
  by_cases h : p.1 = k <;> simp [h]

theorem stripDemos_addValue (l : List (Val × Officer)) (k : Val) (q : ℚ) :
    stripDemos (addValue l k q) = addValue (stripDemos l) k q := by
  unfold stripDemos addValue mapUpdate
  rw [List.map_map, List.map_map]
  apply List.map_congr_left
  intro p _
  by_cases h : p.1 = k <;> simp [h]

theorem revStep_stripDemos (m : Int) (pac : Int → Int) (acc : List (Val × Officer))
    (e : RawEvent) (hlss : lsIsString e = true) :
    revStep m pac (stripDemos acc) e = stripDemos (adminStep m pac acc e) := by
  cases hts : e.tsStrp with
  | none => simp [revStep, adminStep, hts]
  | some t =>
    cases hd : e.data with
    | none => simp [revStep, adminStep, hts, hd]
    | some d =>
      by_cases hm : monthOfDay (pacDay pac t) = m
      · unfold lsIsString at hlss
        rw [hd] at hlss
        have hlss2 : (match getD d "Leadsales" (Val.str "no") with
            | Val.str _ => true
            | Val.other _ => false) = true := hlss
        obtain ⟨ls0, hls0⟩ : ∃ s, getD d "Leadsales" (Val.str "no") = Val.str s := by
          cases hv : getD d "Leadsales" (Val.str "no") with
          | str s => exact ⟨s, rfl⟩
          | other b => rw [hv] at hlss2; simp at hlss2
        have hlow : (getD d "Leadsales" (Val.str "no")).lower?
            = some ⟨List.map Char.toLower ls0.data⟩ := by
          rw [hls0]
          rfl
        by_cases hyes : (⟨List.map Char.toLower ls0.data⟩ : String) = "yes"
        · cases hpay : payAmount? (getD d "Paymentamount" (Val.str "0")) with
          | none =>
            have h1 : adminStep m pac acc e
                = bumpDemos (ensureOff acc (getD d "SetOfficerName" (Val.str "")))
                    (getD d "SetOfficerName" (Val.str "")) := by
              simp [adminStep, hts, hd, hm, hlow, hyes, hpay]
            have h2 : revStep m pac (stripDemos acc) e
                = ensureOff (stripDemos acc) (getD d "SetOfficerName" (Val.str "")) := by
              simp [revStep, hts, hd, hm, hpay]
            rw [h1, h2, stripDemos_bumpDemos, stripDemos_ensureOff]
          | some q =>
            have h1 : adminStep m pac acc e
                = addValue (bumpDemos (ensureOff acc (getD d "SetOfficerName" (Val.str "")))
                    (getD d "SetOfficerName" (Val.str "")))
                    (getD d "SetOfficerName" (Val.str "")) q := by
              simp [adminStep, hts, hd, hm, hlow, hyes, hpay]
            have h2 : revStep m pac (stripDemos acc) e
                = addValue (ensureOff (stripDemos acc) (getD d "SetOfficerName" (Val.str "")))
                    (getD d "SetOfficerName" (Val.str "")) q := by
              simp [revStep, hts, hd, hm, hpay]
            rw [h1, h2, stripDemos_addValue, stripDemos_bumpDemos, stripDemos_ensureOff]
        · cases hpay : payAmount? (getD d "Paymentamount" (Val.str "0")) with
          | none =>
            have h1 : adminStep m pac acc e
                = ensureOff acc (getD d "SetOfficerName" (Val.str "")) := by
              simp [adminStep, hts, hd, hm, hlow, hyes, hpay]
            have h2 : revStep m pac (stripDemos acc) e
                = ensureOff (stripDemos acc) (getD d "SetOfficerName" (Val.str "")) := by
              simp [revStep, hts, hd, hm, hpay]
            rw [h1, h2, stripDemos_ensureOff]
          | some q =>
            have h1 : adminStep m pac acc e
                = addValue (ensureOff acc (getD d "SetOfficerName" (Val.str "")))
                    (getD d "SetOfficerName" (Val.str "")) q := by
              simp [adminStep, hts, hd, hm, hlow, hyes, hpay]
            have h2 : revStep m pac (stripDemos acc) e
                = addValue (ensureOff (stripDemos acc) (getD d "SetOfficerName" (Val.str "")))
                    (getD d "SetOfficerName" (Val.str "")) q := by
              simp [revStep, hts, hd, hm, hpay]
            rw [h1, h2, stripDemos_addValue, stripDemos_ensureOff]
      · simp [revStep, adminStep, hts, hd, hm]

theorem revFold_stripDemos (m : Int) (pac : Int → Int) :
    ∀ (data : List RawEvent), (∀ e ∈ data, lsIsString e = true) →
      ∀ acc : List (Val × Officer),
        data.foldl (revStep m pac) (stripDemos acc)
          = stripDemos (data.foldl (adminStep m pac) acc) := by
  intro data
  induction data with
  | nil => intro _ acc; rfl
  | cons e rest ih =>
    intro hall acc
    rw [List.foldl_cons, List.foldl_cons,
      revStep_stripDemos m pac acc e (hall e (List.mem_cons_self e rest))]
    exact ih (fun e' he' => hall e' (List.mem_cons_of_mem _ he')) _

theorem ensureOff_demos0 (l : List (Val × Officer)) (k : Val)
    (h : ∀ p ∈ l, p.2.demos = 0) : ∀ p ∈ ensureOff l k, p.2.demos = 0 := by
  intro p hp
  unfold ensureOff at hp
  by_cases ha : l.any (fun p => p.1 == k)
  · rw [if_pos ha] at hp
    exact h p hp
  · rw [if_neg ha] at hp
    rcases List.mem_append.1 hp with h1 | h2
    · exact h p h1
    · have hp2 : p = (k, (⟨k, 0, 0⟩ : Officer)) := by simpa using h2
      rw [hp2]

theorem addValue_demos0 (l : List (Val × Officer)) (k : Val) (q : ℚ)
    (h : ∀ p ∈ l, p.2.demos = 0) : ∀ p ∈ addValue l k q, p.2.demos = 0 := by
  intro p hp
  unfold addValue mapUpdate at hp
  rcases List.mem_map.1 hp with ⟨p0, hp0, heq⟩
  by_cases hk : p0.1 = k
  · rw [← heq]
    simp [hk]
    exact h p0 hp0
  · rw [← heq]
    simp [hk]
    exact h p0 hp0

theorem revStep_demos0 (m : Int) (pac : Int → Int) (acc : List (Val × Officer))
    (e : RawEvent) (h : ∀ p ∈ acc, p.2.demos = 0) :
    ∀ p ∈ revStep m pac acc e, p.2.demos = 0 := by
  rcases revStep_shape m pac acc e with hs | ⟨off, qo, hs⟩
  · rw [hs]
    exact h
  · rw [hs]
    cases qo with
    | none => simpa using ensureOff_demos0 acc off h
    | some q => exact addValue_demos0 _ off q (ensureOff_demos0 acc off h)

theorem revFold_demos0 (m : Int) (pac : Int → Int) :
    ∀ (data : List RawEvent) (acc : List (Val × Officer)),
      (∀ p ∈ acc, p.2.demos = 0) →
      ∀ p ∈ data.foldl (revStep m pac) acc, p.2.demos = 0 := by
  intro data
  induction data with
  | nil => intro acc h; exact h
  | cons e rest ih =>
    intro acc h
    rw [List.foldl_cons]
    exact ih _ (revStep_demos0 m pac acc e h)

/-- Claim C7, counterexample: the claim states that the value field of every
officer is equal across the two variants on the same input.  For an in-month
event with a non-string (truthy) `Leadsales` and payment `"100"`, the demos
variant raises `AttributeError` at `lead_sales.lower()` AFTER creating the
officer's zero entry and never adds the payment (value 0), while the
initial-payments variant — which never reads `Leadsales` — adds it
(value 100). -/
theorem C7_counterexample :
    process_admin_monthly_revenue NOWC pacPST [evBadLS] = [⟨Val.str "X", 0, 0⟩]
      ∧ process_monthly_revenue_enrollments NOWC pacPST [evBadLS]
        = [⟨Val.str "X", 100, 0⟩] := by
  have hm2 : monthOfDay (dayOfMin (NOWC + pacPST NOWC)) = 10 := by decide
  have hm : monthOfDay (pacDay pacPST tsInMonth) = 10 := by decide
  have hg1 : getD [("SetOfficerName", Val.str "X"), ("Leadsales", Val.other true),
      ("Paymentamount", Val.str "100")] "SetOfficerName" (Val.str "") = Val.str "X" := by
    decide
  have hg2 : getD [("SetOfficerName", Val.str "X"), ("Leadsales", Val.other true),
      ("Paymentamount", Val.str "100")] "Leadsales" (Val.str "no") = Val.other true := by
    decide
  have hg3 : getD [("SetOfficerName", Val.str "X"), ("Leadsales", Val.other true),
      ("Paymentamount", Val.str "100")] "Paymentamount" (Val.str "0") = Val.str "100" := by
    decide
  have hpay : payAmount? (Val.str "100") = some ((100 : ℚ) / 10 ^ 0) :=
    payAmount_pos_eval "100" 100 0 ['1', '0', '0']
      (by decide) (by decide) (by decide) (by decide)
  have hpc : payContrib 10 ⟨some tsInMonth, some tsInMonth,
      some [("SetOfficerName", Val.str "X"), ("Leadsales", Val.other true),
        ("Paymentamount", Val.str "100")]⟩ = none := by decide
  constructor
  · simp [process_admin_monthly_revenue, adminStep, evBadLS, hm, hm2, hg1, hg2, hg3,
      Val.lower?, ensureOff, alookup, mapUpdate, bumpDemos, addValue]
  · simp [process_monthly_revenue_enrollments, revStep, process_initial_payments,
      payStep, evBadLS, hm, hm2, hg1, hg3, hpay, hpc, Val.lower?, ensureOff, alookup,
      mapUpdate, addValue]

/-- Claim C7, amended: provided no event carries a non-string `Leadsales`
value (the demos variant's `.lower()` cannot raise mid-entry), the two
variants agree on every officer's name and accumulated value; and —
unconditionally — each officer's demos in the initial-payments variant
equals the deduplicated initial-payment count for that officer name when
the name is in the deduplicated ledger, and 0 otherwise. -/
theorem C7_amended (now : Int) (pac : Int → Int) (data : List RawEvent) :
    ((∀ e ∈ data, lsIsString e = true) →
      (process_monthly_revenue_enrollments now pac data).map (fun o => (o.name, o.value))
        = (process_admin_monthly_revenue now pac data).map (fun o => (o.name, o.value)))
    ∧ (∀ o ∈ process_monthly_revenue_enrollments now pac data,
        o.demos = (match alookup (process_initial_payments now pac data) o.name with
                   | some lg => lg.count
                   | none => 0)) := by
  have hunfoldB : process_monthly_revenue_enrollments now pac data
      = ((data.foldl (revStep (monthOfDay (dayOfMin (now + pac now))) pac) []).map (·.2)).map
          (fun o => match alookup (process_initial_payments now pac data) o.name with
                    | some lg => { o with demos := lg.count }
                    | none => o) := rfl
  have hunfoldA : process_admin_monthly_revenue now pac data
      = (data.foldl (adminStep (monthOfDay (dayOfMin (now + pac now))) pac) []).map (·.2) :=
    rfl
  constructor
  · intro hall
    rw [hunfoldA, hunfoldB]
    have hfold : data.foldl (revStep (monthOfDay (dayOfMin (now + pac now))) pac) []
        = stripDemos (data.foldl (adminStep (monthOfDay (dayOfMin (now + pac now))) pac) []) := by
      have := revFold_stripDemos (monthOfDay (dayOfMin (now + pac now))) pac data hall []
      simpa [stripDemos] using this
    rw [hfold]
    rw [List.map_map, List.map_map, List.map_map]
    unfold stripDemos
    rw [List.map_map]
    apply List.map_congr_left
    intro p _
    simp only [Function.comp]
    cases h : alookup (process_initial_payments now pac data)
        (p.2.name : Val) with
    | none => simp [h]
    | some lg => simp [h]
  · intro o ho
    rw [hunfoldB] at ho
    rcases List.mem_map.1 ho with ⟨o', ho', rfl⟩
    rcases List.mem_map.1 ho' with ⟨p, hp, rfl⟩
    have hd0 : p.2.demos = 0 :=
      revFold_demos0 (monthOfDay (dayOfMin (now + pac now))) pac data [] (by simp) p hp
    cases h : alookup (process_initial_payments now pac data) p.2.name with
    | none => simp [h, hd0]
    | some lg => simp [h]

/-- Witness for C7 (amended) at a concrete input whose `Leadsales` values
are all strings. -/
theorem C7_amended_witness :
    (process_monthly_revenue_enrollments NOWC pacPST [evPay (Val.str "300")]).map
        (fun o => (o.name, o.value))
      = (process_admin_monthly_revenue NOWC pacPST [evPay (Val.str "300")]).map
        (fun o => (o.name, o.value)) :=
  (C7_amended NOWC pacPST [evPay (Val.str "300")]).1
    (by intro e he; simp at he; rw [he]; decide)

/-! ## Claim C1 — initial-payment deduplicator -/

theorem alookup_ledgerAdd_self (acc : List (Val × Ledger)) (offn ci : Val) :
    alookup (ledgerAdd acc offn ci) offn =
      (match alookup acc offn with
       | none => some ⟨1, [ci]⟩
       | some lg => if ci ∈ lg.cases then some lg
           else some ⟨lg.count + 1, lg.cases ++ [ci]⟩) := by
  unfold ledgerAdd
  by_cases h : acc.any (fun p => p.1 == offn)
  · rw [if_pos h]
    have hs : (alookup acc offn).isSome = true := by rw [← any_key_eq_isSome]; exact h
    obtain ⟨lg0, hlg0⟩ := Option.isSome_iff_exists.1 hs
    rw [hlg0]
    by_cases hci : ci ∈ lg0.cases
    · simp [hlg0, hci]
    · simp [hlg0, hci, alookup_mapUpdate]
  · rw [if_neg h]
    have hn : alookup acc offn = none := by
      rw [any_key_eq_isSome] at h
      exact Option.not_isSome_iff_eq_none.1 (by simpa using h)
    have h1 : alookup (acc ++ [(offn, (⟨0, []⟩ : Ledger))]) offn = some ⟨0, []⟩ := by
      rw [alookup_append_single, hn]
      simp
    simp only [h1]
    simp [hn, alookup_mapUpdate, h1]

theorem alookup_ledgerAdd_other (acc : List (Val × Ledger)) (offn ci k : Val)
    (hk : ¬(k = offn)) :
    alookup (ledgerAdd acc offn ci) k = alookup acc k := by
  have hk3 : ¬(offn = k) := fun hh => hk hh.symm
  unfold ledgerAdd
  by_cases h : acc.any (fun p => p.1 == offn)
  · rw [if_pos h]
    cases hlk : alookup acc offn with
    | none => simp [hlk]
    | some lg =>
      by_cases hci : ci ∈ lg.cases
      · simp [hlk, hci]
      · simp [hlk, hci, alookup_mapUpdate, hk]
  · rw [if_neg h]
    have hstep : alookup (acc ++ [(offn, (⟨0, []⟩ : Ledger))]) k = alookup acc k := by
      rw [alookup_append_single]
      cases hv : alookup acc k with
      | some w => simp
      | none => simp [hk3]
    cases hlk : alookup (acc ++ [(offn, (⟨0, []⟩ : Ledger))]) offn with
    | none => simp [hlk, hstep]
    | some lg =>
      by_cases hci : ci ∈ lg.cases
      · simp [hlk, hci, hstep]
      · simp [hlk, hci, alookup_mapUpdate, hk, hstep]

theorem payStep_alookup (m : Int) (acc : List (Val × Ledger)) (e : RawEvent) (k : Val) :
    alookup (payStep m acc e) k =
      (match payHitCase m k e with
       | none => alookup acc k
       | some ci =>
         match alookup acc k with
         | none => some ⟨1, [ci]⟩
         | some lg => if ci ∈ lg.cases then some lg
             else some ⟨lg.count + 1, lg.cases ++ [ci]⟩) := by
  unfold payStep payHitCase
  cases hpc : payContrib m e with
  | none => rfl
  | some pr =>
    obtain ⟨offn, ci⟩ := pr
    by_cases hk : offn = k
    · subst hk
      simp only [if_pos rfl]
      exact alookup_ledgerAdd_self acc offn ci
    · have hk2 : ¬(k = offn) := fun hh => hk hh.symm
      simp only [hk, if_false]
      exact alookup_ledgerAdd_other acc offn ci k hk2

theorem ledgerExtend_spec :
    ∀ (cl : List Val) (lg : Ledger), lg.cases.Nodup → lg.count = lg.cases.length →
      (ledgerExtend lg cl).cases.Nodup
      ∧ (ledgerExtend lg cl).count = (ledgerExtend lg cl).cases.length
      ∧ (∀ x, x ∈ (ledgerExtend lg cl).cases ↔ x ∈ lg.cases ∨ x ∈ cl) := by
  intro cl
  induction cl with
  | nil =>
    intro lg h1 h2
    exact ⟨h1, h2, fun x => by simp [ledgerExtend]⟩
  | cons c rest ih =>
    intro lg h1 h2
    by_cases hc : c ∈ lg.cases
    · have hstep : ledgerExtend lg (c :: rest) = ledgerExtend lg rest := by
        simp [ledgerExtend, hc]
      rw [hstep]
      rcases ih lg h1 h2 with ⟨g1, g2, g3⟩
      refine ⟨g1, g2, fun x => ?_⟩
      rw [g3 x]
      constructor
      · rintro (hx | hx)
        · exact Or.inl hx
        · exact Or.inr (List.mem_cons_of_mem _ hx)
      · rintro (hx | hx)
        · exact Or.inl hx
        · rcases List.mem_cons.1 hx with hx2 | hx2
          · exact Or.inl (hx2 ▸ hc)
          · exact Or.inr hx2
    · have hstep : ledgerExtend lg (c :: rest)
          = ledgerExtend ⟨lg.count + 1, lg.cases ++ [c]⟩ rest := by
        simp [ledgerExtend, hc]
      rw [hstep]
      have h1' : (lg.cases ++ [c]).Nodup := by
        rw [List.nodup_append]
        exact ⟨h1, List.nodup_singleton c, by simpa using hc⟩
      have h2' : lg.count + 1 = (lg.cases ++ [c]).length := by
        simp [h2]
      rcases ih ⟨lg.count + 1, lg.cases ++ [c]⟩ h1' h2' with ⟨g1, g2, g3⟩
      refine ⟨g1, g2, fun x => ?_⟩
      rw [g3 x]
      simp only [List.mem_append, List.mem_singleton, List.mem_cons]
      tauto

theorem payFold_alookup (m : Int) :
    ∀ (data : List RawEvent) (acc : List (Val × Ledger)) (k : Val),
      alookup (data.foldl (payStep m) acc) k =
        (match alookup acc k with
         | some lg => some (ledgerExtend lg (data.filterMap (payHitCase m k)))
         | none =>
           if data.filterMap (payHitCase m k) = [] then none
           else some (ledgerExtend ⟨0, []⟩ (data.filterMap (payHitCase m k)))) := by
  intro data
  induction data with
  | nil =>
    intro acc k
    cases h : alookup acc k <;> simp [h, ledgerExtend]
  | cons e rest ih =>
    intro acc k
    rw [List.foldl_cons, ih, payStep_alookup]
    cases hpc : payHitCase m k e with
    | none =>
      cases h : alookup acc k <;> simp [hpc, h, List.filterMap_cons]
    | some ci =>
      cases h : alookup acc k with
      | some lg =>
        by_cases hci : ci ∈ lg.cases
        · simp only [h, hpc, if_pos hci, List.filterMap_cons]
          have : ledgerExtend lg (ci :: rest.filterMap (payHitCase m k))
              = ledgerExtend lg (rest.filterMap (payHitCase m k)) := by
            simp [ledgerExtend, hci]
          rw [this]
        · simp only [h, hpc, if_neg hci, List.filterMap_cons]
          have : ledgerExtend lg (ci :: rest.filterMap (payHitCase m k))
              = ledgerExtend ⟨lg.count + 1, lg.cases ++ [ci]⟩
                  (rest.filterMap (payHitCase m k)) := by
            simp [ledgerExtend, hci]
          rw [this]
      | none =>
        simp only [h, hpc, List.filterMap_cons]
        have : ledgerExtend (⟨0, []⟩ : Ledger) (ci :: rest.filterMap (payHitCase m k))
            = ledgerExtend ⟨1, [ci]⟩ (rest.filterMap (payHitCase m k)) := by
          simp [ledgerExtend]
        rw [this]
        simp

/-- Claim C1, counterexample: the deduplicator's month guard compares month
numbers only (`timestamp.month != current_month`), so with "now" in October
2026 an initial-payment event timestamped October 2025 — not in the current
calendar month, hence with zero qualifying events the claim's count is 0 —
is nevertheless counted: officer `"A"` gets count 1. -/
theorem C1_counterexample :
    process_initial_payments NOWC pacPST [evIPold]
        = [(Val.str "A", ⟨1, [Val.str "9"]⟩)]
      ∧ specInCurrentCalMonth NOWC pacPST tsLastYear = false := by
  constructor
  · decide
  · decide

/-- Claim C1, amended: for every raw event list the deduplicator returns,
for each officer, a ledger whose count equals the number of DISTINCT case
identifiers among that officer's qualifying events — `InitialPayment`
lowercasing to `"yes"`, the timestamp's month number read in its own UTC
offset equal to the current Pacific month number (the year is not
compared), and officer name and case ID present and truthy; an event whose
(officer, case ID) pair was already counted leaves the ledger unchanged,
the tracked case list is duplicate-free, and officers with no qualifying
event are absent. -/
theorem C1_amended (now : Int) (pac : Int → Int) (data : List RawEvent) (k : Val) :
    ((alookup (process_initial_payments now pac data) k = none)
      ↔ data.filterMap (payHitCase (monthOfDay (dayOfMin (now + pac now))) k) = [])
    ∧ (∀ lg, alookup (process_initial_payments now pac data) k = some lg →
        lg.cases.Nodup
        ∧ (∀ x, x ∈ lg.cases
            ↔ x ∈ data.filterMap (payHitCase (monthOfDay (dayOfMin (now + pac now))) k))
        ∧ lg.count = lg.cases.length
        ∧ lg.count = (data.filterMap
            (payHitCase (monthOfDay (dayOfMin (now + pac now))) k)).toFinset.card) := by
  have hunfold : process_initial_payments now pac data
      = data.foldl (payStep (monthOfDay (dayOfMin (now + pac now)))) [] := rfl
  rw [hunfold, payFold_alookup]
  by_cases hcl0 : data.filterMap (payHitCase (monthOfDay (dayOfMin (now + pac now))) k) = []
  · simp [hcl0, alookup_nil]
  · rcases ledgerExtend_spec
        (data.filterMap (payHitCase (monthOfDay (dayOfMin (now + pac now))) k))
        ⟨0, []⟩ List.nodup_nil rfl with ⟨g1, g2, g3⟩
    constructor
    · simp [alookup_nil, hcl0]
    · intro lg hlg
      rw [alookup_nil] at hlg
      rw [if_neg hcl0] at hlg
      injection hlg with hlg
      subst hlg
      have hmem : ∀ x, x ∈ (ledgerExtend ⟨0, []⟩
          (data.filterMap (payHitCase (monthOfDay (dayOfMin (now + pac now))) k))).cases
          ↔ x ∈ data.filterMap (payHitCase (monthOfDay (dayOfMin (now + pac now))) k) := by
        intro x
        rw [g3 x]
        simp
      have hfin : (ledgerExtend ⟨0, []⟩
          (data.filterMap (payHitCase (monthOfDay (dayOfMin (now + pac now))) k))).cases.toFinset
          = (data.filterMap (payHitCase (monthOfDay (dayOfMin (now + pac now))) k)).toFinset := by
        ext x
        simp only [List.mem_toFinset]
        exact hmem x
      exact ⟨g1, hmem, g2, by rw [g2, ← List.toFinset_card_of_nodup g1, hfin]⟩

/-- Witness for C1 (amended) at a concrete input: two in-month
initial-payment events with the same officer and the same case ID yield
count 1 — the number of distinct case identifiers — not 2. -/
theorem C1_amended_witness :
    alookup (process_initial_payments NOWC pacPST [evIP "27594", evIP "27594"])
        (Val.str "A") = some ⟨1, [Val.str "27594"]⟩
      ∧ (1 : Nat) = ([evIP "27594", evIP "27594"].filterMap
          (payHitCase (monthOfDay (dayOfMin (NOWC + pacPST NOWC)))
            (Val.str "A"))).toFinset.card :=
  ⟨by decide,
    ((C1_amended NOWC pacPST [evIP "27594", evIP "27594"] (Val.str "A")).2
      ⟨1, [Val.str "27594"]⟩ (by decide)).2.2.2⟩

/-! ## Claim C9 — malformed events -/

theorem dailyStep_noop (pac : Int → Int) (b : List (Int × Nat)) (e : RawEvent)
    (h : malformedDaily e = true) : dailyStep pac b e = b := by
  unfold malformedDaily at h
  cases hts : e.tsIso with
  | none => simp [dailyStep, hts]
  | some t =>
    rw [hts] at h
    simp only [Option.isNone_some, Bool.false_or] at h
    unfold lsRaises at h
    cases hd : e.data with
    | none => simp [dailyStep, hts, hd]
    | some d =>
      rw [hd] at h
      have h2 : ((getD d "Leadsales" (Val.str "no")).lower?).isNone = true := h
      have hlow : (getD d "Leadsales" (Val.str "no")).lower? = none :=
        Option.isNone_iff_eq_none.mp h2
      simp [dailyStep, hts, hd, hlow]

theorem leadStep_noop (m : Int) (pac : Int → Int) (acc : List (Val × Nat))
    (e : RawEvent) (h : malformedMonthly e = true) : leadStep m pac acc e = acc := by
  unfold malformedMonthly at h
  cases hts : e.tsStrp with
  | none => simp [leadStep, hts]
  | some t =>
    rw [hts] at h
    simp only [Option.isNone_some, Bool.false_or] at h
    unfold lsRaises at h
    cases hd : e.data with
    | none => simp [leadStep, hts, hd]
    | some d =>
      rw [hd] at h
      have h2 : ((getD d "Leadsales" (Val.str "no")).lower?).isNone = true := h
      have hlow : (getD d "Leadsales" (Val.str "no")).lower? = none :=
        Option.isNone_iff_eq_none.mp h2
      simp [leadStep, hts, hd, hlow]

theorem openerStep_noop (m : Int) (pac : Int → Int) (acc : List (Val × Nat))
    (e : RawEvent) (h : malformedMonthly e = true) : openerStep m pac acc e = acc := by
  unfold malformedMonthly at h
  cases hts : e.tsStrp with
  | none => cases hd : e.data <;> simp [openerStep, hts, hd]
  | some t =>
    rw [hts] at h
    simp only [Option.isNone_some, Bool.false_or] at h
    unfold lsRaises at h
    cases hd : e.data with
    | none => simp [openerStep, hts, hd]
    | some d =>
      rw [hd] at h
      have h2 : ((getD d "Leadsales" (Val.str "no")).lower?).isNone = true := h
      have hlow : (getD d "Leadsales" (Val.str "no")).lower? = none :=
        Option.isNone_iff_eq_none.mp h2
      simp [openerStep, hts, hd, hlow]

theorem payContrib_none_of_malformed (m : Int) (e : RawEvent)
    (h : malformedPay e = true) : payContrib m e = none := by
  unfold malformedPay at h
  unfold payContrib
  cases hd : e.data with
  | none => rfl
  | some d =>
    rw [hd] at h
    have h3 : (e.tsStrp.isNone || ipRaises e
        || !(optTruthy (getOptV d "SetOfficerName")
          && optTruthy (getOptV d "CaseID"))) = true := h
    cases hip : (getD d "InitialPayment" (Val.str "no")).lower? with
    | none => simp [hip]
    | some ip =>
      have hipr : ipRaises e = false := by
        have h4 : ipRaises e
            = ((getD d "InitialPayment" (Val.str "no")).lower?).isNone := by
          unfold ipRaises; rw [hd]
        rw [h4, hip]
        rfl
      rw [hipr] at h3
      by_cases hyes : ip = "yes"
      · cases hts : e.tsStrp with
        | none => simp [hip, hyes, hts]
        | some t =>
          rw [hts] at h3
          simp only [Option.isNone_some, Bool.false_or, Bool.or_false] at h3
          by_cases hm2 : monthOfDay (ownDay t) = m
          · cases ho : getOptV d "SetOfficerName" with
            | none => simp [hip, hyes, hm2, ho]
            | some ov =>
              cases hc : getOptV d "CaseID" with
              | none => simp [hip, hyes, hm2, ho, hc]
              | some cv =>
                have hcond : (ov.truthy && cv.truthy) = false := by
                  rw [ho, hc] at h3
                  simp [optTruthy] at h3
                  rcases h3 with h3 | h3 <;> simp [h3]
                simp [hip, hyes, hm2, ho, hc, hcond]
          · simp [hip, hyes, hm2]
      · simp [hip, hyes]

theorem payStep_noop (m : Int) (acc : List (Val × Ledger)) (e : RawEvent)
    (h : malformedPay e = true) : payStep m acc e = acc := by
  unfold payStep
  rw [payContrib_none_of_malformed m e h]

/-- Claim C9, amended: every aggregator is embedded as a total function —
no event list makes it throw, each caught per-event exception being one of
the explicit skip paths of the model.  For the daily-enrollment,
lead-source, opener and initial-payment aggregators, an event with a
missing or non-mapping `data`, a mistyped flag field, an unparsable
timestamp, or (for the deduplicator) a missing/falsy officer or case ID
contributes nothing: the result equals that of the list with the event
removed.  For the two monthly-revenue aggregators this fails — see the
counterexample: a malformed current-month event still creates the
officer's zero entry, and in the demos variant can increment `demos`,
before the failure point. -/
theorem C9_amended (now : Int) (pac : Int → Int) (pre post : List RawEvent)
    (e : RawEvent) :
    (malformedDaily e = true →
      process_daily_enrollments now pac (pre ++ e :: post)
        = process_daily_enrollments now pac (pre ++ post))
    ∧ (malformedMonthly e = true →
      process_leadsource_data now pac (pre ++ e :: post)
        = process_leadsource_data now pac (pre ++ post))
    ∧ (malformedMonthly e = true →
      process_enrollments_per_opener now pac (pre ++ e :: post)
        = process_enrollments_per_opener now pac (pre ++ post))
    ∧ (malformedPay e = true →
      process_initial_payments now pac (pre ++ e :: post)
        = process_initial_payments now pac (pre ++ post)) := by
  refine ⟨fun h => ?_, fun h => ?_, fun h => ?_, fun h => ?_⟩
  · show (sortDescI ((pre ++ e :: post).foldl (dailyStep pac)
        (seedBuckets (dayOfMin (now + pac now))))).take 10
      = (sortDescI ((pre ++ post).foldl (dailyStep pac)
        (seedBuckets (dayOfMin (now + pac now))))).take 10
    rw [foldl_middle_noop (dailyStep pac) _ pre post e
      (fun st => dailyStep_noop pac st e h)]
  · show (pre ++ e :: post).foldl
        (leadStep (monthOfDay (dayOfMin (now + pac now))) pac) []
      = (pre ++ post).foldl (leadStep (monthOfDay (dayOfMin (now + pac now))) pac) []
    rw [foldl_middle_noop (leadStep (monthOfDay (dayOfMin (now + pac now))) pac) _
      pre post e (fun st => leadStep_noop _ pac st e h)]
  · show sortDescC ((pre ++ e :: post).foldl
        (openerStep (monthOfDay (dayOfMin (now + pac now))) pac) [])
      = sortDescC ((pre ++ post).foldl
        (openerStep (monthOfDay (dayOfMin (now + pac now))) pac) [])
    rw [foldl_middle_noop (openerStep (monthOfDay (dayOfMin (now + pac now))) pac) _
      pre post e (fun st => openerStep_noop _ pac st e h)]
  · show (pre ++ e :: post).foldl
        (payStep (monthOfDay (dayOfMin (now + pac now)))) []
      = (pre ++ post).foldl (payStep (monthOfDay (dayOfMin (now + pac now)))) []
    rw [foldl_middle_noop (payStep (monthOfDay (dayOfMin (now + pac now)))) _
      pre post e (fun st => payStep_noop _ st e h)]

/-- Witness for C9 (amended) at a concrete input: a fully malformed event
(no parseable timestamp, no data mapping) is a no-op for the four
aggregators. -/
theorem C9_amended_witness :
    process_daily_enrollments NOWC pacPST [evDaily tsInMonth, evNothing]
        = process_daily_enrollments NOWC pacPST [evDaily tsInMonth]
      ∧ process_leadsource_data NOWC pacPST [evLS tsInMonth, evNothing]
        = process_leadsource_data NOWC pacPST [evLS tsInMonth]
      ∧ process_enrollments_per_opener NOWC pacPST [evNothing]
        = process_enrollments_per_opener NOWC pacPST []
      ∧ process_initial_payments NOWC pacPST [evIP "1", evNothing]
        = process_initial_payments NOWC pacPST [evIP "1"] :=
  ⟨(C9_amended NOWC pacPST [evDaily tsInMonth] [] evNothing).1 (by decide),
    (C9_amended NOWC pacPST [evLS tsInMonth] [] evNothing).2.1 (by decide),
    (C9_amended NOWC pacPST [] [] evNothing).2.2.1 (by decide),
    (C9_amended NOWC pacPST [evIP "1"] [] evNothing).2.2.2 (by decide)⟩

/-- Claim C9, counterexample: in `process_admin_monthly_revenue` a
current-month event with a well-formed `Leadsales: "yes"` but a mistyped
(non-string) `Paymentamount` increments the officer's demos and leaves the
created entry behind before the `AttributeError` on `.strip` is caught —
the result differs from the run with the malformed event absent. -/
theorem C9_counterexample :
    process_admin_monthly_revenue NOWC pacPST [evBadPay] = [⟨Val.str "X", 0, 1⟩]
      ∧ process_admin_monthly_revenue NOWC pacPST [] = [] := by
  constructor
  · decide
  · rfl

/-! ## Claim C10 — month frames of the deduplicator vs the others -/

/-- Claim C10 (confirmed): the deduplicator reads the month number of the
`strptime` result directly — in the timestamp's own UTC offset — while the
lead-source, revenue and opener aggregators `astimezone` to Pacific first.
The event timestamped 2026-10-01T00:30:00+00:00 is October in its own
offset (so the deduplicator counts it when "now" is Pacific October 2026)
but still 2026-09-30 in Pacific time (so the other three aggregators
exclude it). -/
theorem C10_tz_frames :
    monthOfDay (ownDay tsBoundary) = 10
    ∧ monthOfDay (pacDay pacPST tsBoundary) = 9
    ∧ monthOfDay (dayOfMin (NOWC + pacPST NOWC)) = 10
    ∧ process_initial_payments NOWC pacPST [evBoundaryFull]
        = [(Val.str "A", ⟨1, [Val.str "1"]⟩)]
    ∧ process_leadsource_data NOWC pacPST [evBoundaryFull] = []
    ∧ process_admin_monthly_revenue NOWC pacPST [evBoundaryFull] = []
    ∧ process_enrollments_per_opener NOWC pacPST [evBoundaryFull] = [] := by
  refine ⟨by decide, by decide, by decide, by decide, by decide, by decide, by decide⟩
